import Mathlib

/-!
# libobs/util/bmem.c : the aligned, pluggable, tracked allocator

A shallow embedding of `bmem.c` (and the inline helpers of `bmem.h`).

* Addresses are natural numbers, `0` is `NULL`.  Memory is a byte map.
* `size_t` and `long` are the 64-bit types of the LP64 targets on which the
  `ALIGNMENT_HACK` branch is compiled (every non-Windows build); `size_t`
  arithmetic wraps modulo `2 ^ 64`.  Plain `char` is signed.
* The platform allocator (`malloc`/`realloc`/`free` of libc) and every
  installed backend are triples of state transformers over a `Machine`: the
  byte memory plus a state private to the allocator.
* The linked list `alloc_list` is a `List` of records, newest first; the nodes
  and the reason strings themselves are kept abstract (their own storage is
  not part of the model).
* `bcrash` ends the process: a call that reaches it `aborts`.
* `memcpy` and `strlen` are the libc functions on the byte memory; `strlen` searches for
  the first zero byte within the address space.
-/

namespace Bmem

/-! ## Machine model -/

/-- The number of values of `size_t` / `unsigned long` (LP64). -/
def SIZE_MOD : Nat := 2 ^ 64

/-- Byte-addressed memory together with the allocator's private state. -/
structure Machine (ρ : Type) where
  mem : Nat → Nat
  heap : ρ

/-- The declaration `struct base_allocator` of bmem.h: three function pointers.  A C
function acts on the whole machine, so each one is a state transformer. -/
structure base_allocator (ρ : Type) where
  malloc : Nat → Machine ρ → Nat × Machine ρ
  realloc : Nat → Nat → Machine ρ → Nat × Machine ρ
  free : Nat → Machine ρ → Machine ρ

/-- Store one byte: `((char *)base)[idx] = (char)v`. -/
def storeByte (m : Machine ρ) (addr : Nat) (v : Int) : Machine ρ :=
  { m with mem := fun a => if a = addr then (v % 256).toNat else m.mem a }

/-- Load one byte as a (signed) `char` and widen it to `long`. -/
def loadChar (m : Machine ρ) (addr : Nat) : Int :=
  let b := m.mem addr % 256
  if b < 128 then (b : Int) else (b : Int) - 256

/-- Pointer displacement `(char *)ptr + d` for a `long` displacement `d`. -/
def ptrAdd (ptr : Nat) (d : Int) : Nat := ((ptr : Int) + d).toNat

/-! ## Aligned allocation strategy (`ALIGNMENT_HACK`) -/

def ALIGNMENT : Nat := 32

/-- The expression `((~(long)ptr) & (ALIGNMENT - 1)) + 1`, on the two's complement
representation of the address. -/
def alignDiff (ptr : Nat) : Int :=
  (((SIZE_MOD - 1 - ptr % SIZE_MOD) &&& (ALIGNMENT - 1) : Nat) : Int) + 1

def a_malloc (libc : base_allocator ρ) (size : Nat) (m : Machine ρ) : Nat × Machine ρ :=
  let (ptr, m) := libc.malloc ((size + ALIGNMENT) % SIZE_MOD) m
  if ptr ≠ 0 then
    let diff := alignDiff ptr
    let ptr := ptrAdd ptr diff
    (ptr, storeByte m (ptr - 1) diff)
  else
    (ptr, m)

def a_realloc (libc : base_allocator ρ) (ptr size : Nat) (m : Machine ρ) : Nat × Machine ρ :=
  if ptr = 0 then
    a_malloc libc size m
  else
    let diff := loadChar m (ptr - 1)
    let (ptr, m) := libc.realloc (ptrAdd ptr (-diff)) (((size : Int) + diff) % SIZE_MOD).toNat m
    if ptr ≠ 0 then (ptrAdd ptr diff, m) else (ptr, m)

def a_free (libc : base_allocator ρ) (ptr : Nat) (m : Machine ρ) : Machine ρ :=
  if ptr ≠ 0 then libc.free (ptrAdd ptr (-(loadChar m (ptr - 1)))) m else m

/-- The initial value of the static `alloc`: `{a_malloc, a_realloc, a_free}`. -/
def default_alloc (libc : base_allocator ρ) : base_allocator ρ :=
  { malloc := a_malloc libc, realloc := a_realloc libc, free := a_free libc }

def base_get_alignment : Int := ALIGNMENT

/-! ## Collaborators outside bmem.c -/

/-- What the process does to the outside world, in program order. -/
inductive Effect where
  /-- The debugger hook `os_breakpoint()`. -/
  | os_breakpoint
  /-- The call `bcrash(format, arg)`. -/
  | bcrash (format : String) (arg : Nat)
  /-- The call `blog(LOG_INFO, format, ptr, reason)`. -/
  | blog (format : String) (ptr : Nat) (reason : String)
  deriving DecidableEq, Repr

/-- Modelled from the spec: `os_atomic_inc_long` (threading.h is not part of the sources) is
the atomic increment of the live counter, "a single signed integer"; no update is lost. -/
def os_atomic_inc_long (v : Int) : Int := v + 1

/-- Modelled from the spec: `os_atomic_dec_long`, the atomic decrement of the live counter. -/
def os_atomic_dec_long (v : Int) : Int := v - 1

/-! ## Module state -/

/-- One node of `struct s_alloc_list`; the `next` link is the tail of the list. -/
structure s_alloc_list where
  ptr : Nat
  reason : String
  deriving DecidableEq, Repr

/-- The statics of bmem.c, the machine they run on, and the effects emitted so far. -/
structure State (ρ : Type) where
  alloc : base_allocator ρ
  num_allocs : Int
  alloc_list : List s_alloc_list
  machine : Machine ρ
  trace : List Effect

/-- A call either returns to its caller or ends in `bcrash`, which ends the process. -/
inductive Outcome (ρ : Type) (α : Type) where
  | returns (val : α) (s : State ρ)
  | aborts (s : State ρ)

/-- Modelled from the spec: `bcrash` (base.h is not part of the sources) "aborts the process
with a diagnostic message"; the call is recorded and nothing after it runs. -/
def bcrash (format : String) (arg : Nat) (s : State ρ) : Outcome ρ α :=
  .aborts { s with trace := s.trace ++ [Effect.bcrash format arg] }

/-- The hook `os_breakpoint()`, recorded in the trace. -/
def os_breakpoint (s : State ρ) : State ρ :=
  { s with trace := s.trace ++ [Effect.os_breakpoint] }

/-! ## Provenance ledger -/

def addToList (list : List s_alloc_list) (ptr : Nat) (reason : Option String) :
    List s_alloc_list :=
  let reason := match reason with
    | none => "unknown"
    | some r => r
  { ptr := ptr, reason := reason } :: list

def removeFromList : List s_alloc_list → Nat → List s_alloc_list
  | [], _ => []
  | curr :: next, ptr =>
    if curr.ptr = ptr then next else curr :: removeFromList next ptr

/-- The text `snprintf(buf, size, "%s %s", a, b)` leaves in `buf` for `size > 0`:
at most `size - 1` characters of the formatted output. -/
def snprintf_s_s (size : Nat) (a b : String) : String :=
  String.mk ((a.data ++ ' ' :: b.data).take (size - 1))

def concatFuncReason (func reason : String) : String :=
  let length := (func.length + reason.length + 1) % SIZE_MOD
  snprintf_s_s length func reason

/-! ## Public entry points -/

def oom_format : String := "Out of memory while trying to allocate %lu bytes"

def __bmalloc__ (size : Nat) (func reason : String) (s : State ρ) : Outcome ρ Nat :=
  let (ptr, m) := s.alloc.malloc size s.machine
  let (ptr, m) := if ptr = 0 ∧ size = 0 then s.alloc.malloc 1 m else (ptr, m)
  let s := { s with machine := m }
  if ptr = 0 then
    bcrash oom_format (size % SIZE_MOD) (os_breakpoint s)
  else
    .returns ptr { s with
      num_allocs := os_atomic_inc_long s.num_allocs
      alloc_list := addToList s.alloc_list ptr (some (concatFuncReason func reason)) }

def __brealloc__ (ptr size : Nat) (func reason : String) (s : State ρ) : Outcome ρ Nat :=
  let s := if ptr = 0 then { s with num_allocs := os_atomic_inc_long s.num_allocs }
    else { s with alloc_list := removeFromList s.alloc_list ptr }
  let (ptr, m) := s.alloc.realloc ptr size s.machine
  let (ptr, m) := if ptr = 0 ∧ size = 0 then s.alloc.realloc ptr 1 m else (ptr, m)
  let s := { s with machine := m }
  if ptr = 0 then
    bcrash oom_format (size % SIZE_MOD) (os_breakpoint s)
  else
    .returns ptr (if ptr ≠ 0 then { s with
      alloc_list := addToList s.alloc_list ptr (some (concatFuncReason func reason)) } else s)

def bfree (ptr : Nat) (s : State ρ) : State ρ :=
  let s := if ptr ≠ 0 then { s with
      num_allocs := os_atomic_dec_long s.num_allocs
      alloc_list := removeFromList s.alloc_list ptr } else s
  { s with machine := s.alloc.free ptr s.machine }

def bnum_allocs (s : State ρ) : Int := s.num_allocs

def leak_format : String := "  %p (%s)"

/-- The loop of `bmem_print_leaks`: log the head, unlink it, go on with `next`. -/
def print_leaks_loop : List s_alloc_list → List Effect → List s_alloc_list × List Effect
  | [], trace => ([], trace)
  | node :: next, trace =>
    print_leaks_loop next (trace ++ [Effect.blog leak_format node.ptr node.reason])

def bmem_print_leaks (s : State ρ) : State ρ :=
  let (list, trace) := print_leaks_loop s.alloc_list s.trace
  { s with alloc_list := list, trace := trace }

def base_set_allocator (defs : base_allocator ρ) (s : State ρ) : State ρ :=
  { s with alloc := defs }

/-- The state at process start: the default backend, no allocation, an empty ledger. -/
def initial (libc : base_allocator ρ) (m : Machine ρ) : State ρ :=
  { alloc := default_alloc libc, num_allocs := 0, alloc_list := [], machine := m, trace := [] }

/-- The state a call ends in. -/
def Outcome.state : Outcome ρ α → State ρ
  | .returns _ s => s
  | .aborts s => s

/-- The value a call returns, if it returns. -/
def Outcome.value : Outcome ρ α → Option α
  | .returns v _ => some v
  | .aborts _ => none

/-! ## Duplication helpers (bmem.c and the inline functions of bmem.h) -/

/-- Modelled from the C library: `memcpy(dst, src, n)` copies `n` bytes; the source is read
as it is when the call is made. -/
def memcpy (dst src n : Nat) (m : Machine ρ) : Machine ρ :=
  { m with mem := fun a => if dst ≤ a ∧ a < dst + n then m.mem (a - dst + src) else m.mem a }

/-- The search of `strlen`, with the index reached so far: stop at the first zero byte. -/
def strlen_from (m : Machine ρ) (str : Nat) : Nat → Nat → Nat
  | 0, i => i
  | fuel + 1, i => if m.mem (str + i) % 256 = 0 then i else strlen_from m str fuel (i + 1)

/-- Modelled from the C library: `strlen(str)`, the index of the first zero byte at or
after `str`; the search is bounded by the size of the address space. -/
def strlen (m : Machine ρ) (str : Nat) : Nat := strlen_from m str SIZE_MOD 0

def __bmemdup__ (ptr size : Nat) (func reason : String) (s : State ρ) : Outcome ρ Nat :=
  match __bmalloc__ size func reason s with
  | .returns out s =>
    .returns out (if size ≠ 0 then { s with machine := memcpy out ptr size s.machine } else s)
  | .aborts s => .aborts s

def __bstrdup_n__ (str n : Nat) (func reason : String) (s : State ρ) : Outcome ρ Nat :=
  if str = 0 then .returns 0 s
  else
    match __bmemdup__ str ((n + 1) % SIZE_MOD) func reason s with
    | .returns dup s => .returns dup { s with machine := storeByte s.machine (dup + n) 0 }
    | .aborts s => .aborts s

def __bstrdup__ (str : Nat) (func reason : String) (s : State ρ) : Outcome ρ Nat :=
  if str = 0 then .returns 0 s
  else __bstrdup_n__ str (strlen s.machine str) func reason s

/-- The read `((char *)base)[idx]` on a target whose plain `char` is unsigned. -/
def loadUChar (m : Machine ρ) (addr : Nat) : Int := ((m.mem addr % 256 : Nat) : Int)

/-! ## Serial call sequences -/

/-- One call of the public interface, with its arguments. -/
inductive Call (ρ : Type) where
  | bmalloc (size : Nat) (func reason : String)
  | brealloc (ptr size : Nat) (func reason : String)
  | bfree (ptr : Nat)
  | bmem_print_leaks
  | base_set_allocator (defs : base_allocator ρ)

/-- Perform one call; the value is the returned pointer, if the call has one. -/
def Call.exec : Call ρ → State ρ → Outcome ρ (Option Nat)
  | .bmalloc size func reason, s =>
    match __bmalloc__ size func reason s with
    | .returns p s => .returns (some p) s
    | .aborts s => .aborts s
  | .brealloc ptr size func reason, s =>
    match __brealloc__ ptr size func reason s with
    | .returns p s => .returns (some p) s
    | .aborts s => .aborts s
  | .bfree ptr, s => .returns none (Bmem.bfree ptr s)
  | .bmem_print_leaks, s => .returns none (Bmem.bmem_print_leaks s)
  | .base_set_allocator defs, s => .returns none (Bmem.base_set_allocator defs s)

/-- Run the calls one after the other; `none` as soon as one of them aborts. -/
def run : List (Call ρ) → State ρ → Option (State ρ)
  | [], s => some s
  | c :: cs, s =>
    match c.exec s with
    | .returns _ s => run cs s
    | .aborts _ => none

/-- A call that takes the counter up: `bmalloc`, and `brealloc` of a null pointer. -/
def Call.allocates : Call ρ → Bool
  | .bmalloc _ _ _ => true
  | .brealloc ptr _ _ _ => ptr == 0
  | _ => false

/-- A call that takes the counter down: `bfree` of a non-null pointer. -/
def Call.releases : Call ρ → Bool
  | .bfree ptr => ptr != 0
  | _ => false

/-- Ghost bookkeeping for a returning call: the addresses handed out by `bmalloc` and
`brealloc` and not released since (through `bfree`, or as the old block of `brealloc`). -/
def Call.live (c : Call ρ) (ret : Option Nat) (live : List Nat) : List Nat :=
  match c, ret with
  | .bmalloc _ _ _, some p => p :: live
  | .brealloc old _ _ _, some q => q :: live.filter (fun a => a != old)
  | .bfree p, _ => live.filter (fun a => a != p)
  | _, _ => live

/-- The backend did not answer this call with an address that is allocated and not yet
released; `realloc` may answer with the block it was given. -/
def Call.fresh (c : Call ρ) (ret : Option Nat) (live : List Nat) : Bool :=
  match c, ret with
  | .bmalloc _ _ _, some p => !live.contains p
  | .brealloc old _ _ _, some q => q == old || !live.contains q
  | _, _ => true

/-- Every call of the run was answered with a fresh address, `live` being the addresses
allocated and not yet released when the run starts. -/
def freshRun : List (Call ρ) → State ρ → List Nat → Bool
  | [], _, _ => true
  | c :: cs, s, live =>
    match c.exec s with
    | .returns r s' => c.fresh r live && freshRun cs s' (c.live r live)
    | .aborts _ => true

/-- In a run of matched allocations and frees, a call is a `bmalloc`, or a `bfree` of an
address that is allocated and not yet released. -/
def Call.matched (c : Call ρ) (live : List Nat) : Bool :=
  match c with
  | .bmalloc _ _ _ => true
  | .bfree p => live.contains p
  | _ => false

/-- Every call of the run returns, every `bmalloc` is answered with a fresh address, every
`bfree` releases an address that is allocated at that point, and nothing is left
allocated at the end: each returned block is freed exactly once, after its allocation. -/
def matchedRun : List (Call ρ) → State ρ → List Nat → Bool
  | [], _, live => live.isEmpty
  | c :: cs, s, live =>
    match c.exec s with
    | .returns r s' => c.matched live && c.fresh r live && matchedRun cs s' (c.live r live)
    | .aborts _ => false

/-! ## Derived notions used in the statements -/

/-- The backend's final answer inside `__bmalloc__`: the answer to the request, or to the
retried one-byte request when the size is zero and the first answer was `NULL`. -/
def bmalloc_answer (size : Nat) (s : State ρ) : Nat × Machine ρ :=
  if (s.alloc.malloc size s.machine).1 = 0 ∧ size = 0 then
    s.alloc.malloc 1 (s.alloc.malloc size s.machine).2
  else s.alloc.malloc size s.machine

/-- The state in which a call aborts: breakpoint hook, then `bcrash` with the size. -/
def oom_state (size : Nat) (m : Machine ρ) (s : State ρ) : State ρ :=
  { s with machine := m
           trace := s.trace ++ [Effect.os_breakpoint, Effect.bcrash oom_format (size % SIZE_MOD)] }

/-- The backend's final answer inside `__brealloc__`; the retry passes the null pointer
the first request returned. -/
def brealloc_answer (ptr size : Nat) (s : State ρ) : Nat × Machine ρ :=
  if (s.alloc.realloc ptr size s.machine).1 = 0 ∧ size = 0 then
    s.alloc.realloc 0 1 (s.alloc.realloc ptr size s.machine).2
  else s.alloc.realloc ptr size s.machine

/-- The counter after the first statement of `__brealloc__`. -/
def brealloc_count (ptr : Nat) (s : State ρ) : Int :=
  if ptr = 0 then s.num_allocs + 1 else s.num_allocs

/-- The ledger after the first statement of `__brealloc__`. -/
def brealloc_ledger (ptr : Nat) (s : State ρ) : List s_alloc_list :=
  if ptr = 0 then s.alloc_list else removeFromList s.alloc_list ptr

/-- The invariant behind C8: one record per address, no record for the null pointer, and
every recorded address is allocated and not yet released. -/
def LedgerInv (s : State ρ) (live : List Nat) : Prop :=
  (s.alloc_list.map (fun r => r.ptr)).Nodup ∧ ∀ r ∈ s.alloc_list, r.ptr ≠ 0 ∧ r.ptr ∈ live

/-- The invariant behind C12: the ledger lists exactly the addresses that are allocated and
not yet released, each once and none null, and the counter is their number. -/
def MatchInv (s : State ρ) (live : List Nat) : Prop :=
  s.alloc_list.map (fun r => r.ptr) = live ∧ live.Nodup ∧ (∀ a ∈ live, a ≠ 0) ∧
    s.num_allocs = live.length

/-- The life of one allocation of the header-byte strategy: `HeaderChain libc q r n m` says
that on machine `m` the pointer `q` is the one handed to the caller for the raw block at
`r`, which the platform was asked to make `n` bytes long. It starts with `a_malloc`, goes
on through anything that leaves the byte at `q - 1` alone, and through `a_realloc` when the
platform `realloc` keeps the first `min(old, new)` bytes of the raw block; all sizes are at
most `SIZE_MAX - 32`. -/
inductive HeaderChain (libc : base_allocator ρ) : Nat → Nat → Nat → Machine ρ → Prop where
  | alloc (size r : Nat) (m m1 : Machine ρ) :
      size ≤ SIZE_MOD - 1 - ALIGNMENT →
      libc.malloc ((size + ALIGNMENT) % SIZE_MOD) m = (r, m1) → r ≠ 0 →
      HeaderChain libc (a_malloc libc size m).1 r (size + ALIGNMENT) (a_malloc libc size m).2
  | touch (q r n : Nat) (m m' : Machine ρ) :
      HeaderChain libc q r n m → m'.mem (q - 1) = m.mem (q - 1) →
      HeaderChain libc q r n m'
  | realloc (q r n size r' : Nat) (m m' : Machine ρ) :
      HeaderChain libc q r n m → size ≤ SIZE_MOD - 1 - ALIGNMENT →
      libc.realloc r (size + (q - r)) m = (r', m') → r' ≠ 0 →
      (∀ i, i < min n (size + (q - r)) → m'.mem (r' + i) = m.mem (r + i)) →
      HeaderChain libc (a_realloc libc q size m).1 r' (size + (q - r))
        (a_realloc libc q size m).2

/-! ## Concrete platforms, used to run the code on explicit inputs -/

/-- The private state of the bump platform: the break, and the blocks handed out with the
sizes they were requested with, newest first. -/
structure BumpHeap where
  brk : Nat
  blocks : List (Nat × Nat)

/-- The size the block at `p` was requested with (0 for an address that is no block). -/
def BumpHeap.size (h : BumpHeap) (p : Nat) : Nat :=
  match h.blocks.lookup p with
  | some n => n
  | none => 0

/-- The bump heap after handing out a block of `n` bytes at the break (16-byte granule). -/
def BumpHeap.grow (h : BumpHeap) (n : Nat) : BumpHeap :=
  { brk := h.brk + (max n 1 + 15) / 16 * 16, blocks := (h.brk, n) :: h.blocks }

/-- A libc whose heap is a bump pointer with a 16-byte granule, as on common 64-bit
platforms: `malloc` hands out the block at the break; `realloc` always moves the block and
copies the first `min(old, new)` bytes; `free` reuses nothing. -/
def bump : base_allocator BumpHeap where
  malloc n m := (m.heap.brk, { m with heap := m.heap.grow n })
  realloc p n m :=
    (m.heap.brk,
     { mem := fun a =>
         if p ≠ 0 ∧ m.heap.brk ≤ a ∧ a < m.heap.brk + min (m.heap.size p) n then
           m.mem (a - m.heap.brk + p)
         else m.mem a
       heap := m.heap.grow n })
  free _ m := m

/-- A backend over the bump heap that answers `NULL` to every zero-byte request. -/
def nozero : base_allocator BumpHeap where
  malloc n m := if n = 0 then (0, m) else bump.malloc n m
  realloc p n m := if n = 0 then (0, m) else bump.realloc p n m
  free _ m := m

/-- A machine with zeroed memory whose platform heap starts at `brk`. -/
def machineAt (brk : Nat) : Machine BumpHeap :=
  { mem := fun _ => 0, heap := { brk := brk, blocks := [] } }

/-! ## Concrete inputs -/

/-- The default backend on the bump platform at 4112, after `__bmalloc__(4)` has returned
4128 and the caller has stored a 7 in the first byte of the block. -/
def filled_block : State BumpHeap :=
  { (__bmalloc__ 4 "f" "r" (initial bump (machineAt 4112))).state with
    machine := storeByte (__bmalloc__ 4 "f" "r" (initial bump (machineAt 4112))).state.machine
      4128 7 }

/-- The same platform after `__bmalloc__(SIZE_MAX - 15)` has returned 4128, on a raw block
of `(SIZE_MAX - 15 + 32) mod 2^64 = 16` bytes, and the caller has stored a 7 at 4128. -/
def overflown_block : State BumpHeap :=
  { (__bmalloc__ 18446744073709551600 "f" "r" (initial bump (machineAt 4112))).state with
    machine := storeByte
      (__bmalloc__ 18446744073709551600 "f" "r" (initial bump (machineAt 4112))).state.machine
      4128 7 }

/-- A state whose backend refuses zero-byte requests, with one live block at 64. -/
def nozero_state : State BumpHeap :=
  { alloc := nozero, num_allocs := 1, alloc_list := [{ ptr := 64, reason := "g x" }],
    machine := machineAt 80, trace := [] }

/-- A serial session on the bump platform: an allocation (4128), a leak report, an
allocation through `brealloc(NULL)` (4192), a reallocation of the first block (to 4224),
a null free and the free of the second block. -/
def session : List (Call BumpHeap) :=
  [.bmalloc 16 "f" "r", .bmem_print_leaks, .brealloc 0 8 "g" "r", .brealloc 4128 64 "f" "r",
   .bfree 0, .bfree 4192]

/-- A scratch backend with a single slot: every request is answered with the address
`slot`. -/
def scratch (slot : Nat) : base_allocator BumpHeap where
  malloc _ m := (slot, m)
  realloc _ _ m := (slot, m)
  free _ m := m

/-- A state with one record for 96 and one for 64, whose backend is `scratch 96`. -/
def scratch_state : State BumpHeap :=
  { alloc := scratch 96, num_allocs := 2,
    alloc_list := [{ ptr := 96, reason := "f a" }, { ptr := 64, reason := "f b" }],
    machine := machineAt 0, trace := [] }

/-- A state on the bump platform with three records, the middle one for the block at
4128 that `__bmalloc__(16)` handed out first. -/
def three_blocks : State BumpHeap :=
  { (__bmalloc__ 16 "f" "r" (initial bump (machineAt 4112))).state with
    num_allocs := 3
    alloc_list := [{ ptr := 8000, reason := "f a" }, { ptr := 4128, reason := "f " },
                   { ptr := 9000, reason := "f b" }] }

/-- The address `__bmalloc__(16)` returns for the `k`-th block of 16 bytes on the bump
platform at 4112: raw blocks of 48 bytes, displaced to the next multiple of 32. -/
def blockAddr (k : Nat) : Nat := 4112 + 48 * k + (32 - (4112 + 48 * k) % 32)

/-- Four callers allocating ten blocks of 16 bytes each, interleaved: in each of ten rounds
every caller allocates one block, and callers 1 and 3 free theirs at once; callers 0 and 2
free all of theirs at the end, last round first. -/
def four_callers : List (Call BumpHeap) :=
  (List.range 10).flatMap (fun i =>
    [.bmalloc 16 "caller0" "r", .bmalloc 16 "caller1" "r", .bmalloc 16 "caller2" "r",
     .bmalloc 16 "caller3" "r", .bfree (blockAddr (4 * i + 1)), .bfree (blockAddr (4 * i + 3))])
  ++ (List.range 10).reverse.flatMap (fun i =>
    [.bfree (blockAddr (4 * i)), .bfree (blockAddr (4 * i + 2))])

/-- The bump platform at 4112 with the two bytes 104 and 105 stored at 4000 and 4001,
followed by a zero byte. -/
def source_state : State BumpHeap :=
  initial bump (storeByte (storeByte (machineAt 4112) 4000 104) 4001 105)

/-- An instrumented backend over the bump platform: `free` notes every pointer it is
handed, the null pointer included, at the head of the block list. -/
def noting : base_allocator BumpHeap where
  malloc := bump.malloc
  realloc := bump.realloc
  free p m := { m with heap := { m.heap with blocks := (p, 0) :: m.heap.blocks } }

/-- The initial state after `base_set_allocator` has installed `noting`. -/
def noting_state : State BumpHeap :=
  base_set_allocator noting (initial bump (machineAt 4112))

/-- The initial state after `base_set_allocator` has installed the functions of the bump
platform themselves as the backend. -/
def passthrough_state : State BumpHeap :=
  base_set_allocator bump (initial bump (machineAt 4112))

/-- An exhausted platform: every request is answered with `NULL`. -/
def exhausted : base_allocator BumpHeap where
  malloc _ m := (0, m)
  realloc _ _ m := (0, m)
  free _ m := m

/-! ## Basic facts -/

theorem alignDiff_eq (ptr : Nat) : alignDiff ptr = 32 - ((ptr % 32 : Nat) : Int) := by
  unfold alignDiff
  have h := Nat.and_pow_two_sub_one_eq_mod (SIZE_MOD - 1 - ptr % SIZE_MOD) 5
  have h2 : (ALIGNMENT - 1 : Nat) = 2 ^ 5 - 1 := by decide
  rw [h2, h]
  simp only [SIZE_MOD]
  omega

theorem ptrAdd_alignDiff (ptr : Nat) : ptrAdd ptr (alignDiff ptr) = ptr + (32 - ptr % 32) := by
  rw [alignDiff_eq]
  unfold ptrAdd
  omega

theorem alignDiff_nat (ptr : Nat) : alignDiff ptr = ((32 - ptr % 32 : Nat) : Int) := by
  rw [alignDiff_eq]
  omega

/-- A byte stored from a value in `0 .. 127` reads back as that value. -/
theorem loadChar_storeByte (m : Machine ρ) (addr : Nat) (v : Nat) (hv : v < 128) :
    loadChar (storeByte m addr v) addr = v := by
  unfold loadChar storeByte
  simp only [if_true]
  have h1 : (((v : Int) % 256).toNat) = v := by omega
  rw [h1]
  have h2 : v % 256 = v := by omega
  simp [h2, hv]

/-- The value `loadChar` reads depends on the one byte it reads only. -/
theorem loadChar_congr (m m' : Machine ρ) (addr : Nat) (h : m'.mem addr = m.mem addr) :
    loadChar m' addr = loadChar m addr := by
  unfold loadChar
  rw [h]

/-- What `a_malloc` does with a non-null answer `raw` of the platform: it returns
`raw + d` for `d = 32 - raw % 32` and stamps `d` in the byte before. -/
theorem a_malloc_spec (libc : base_allocator ρ) (size : Nat) (m m1 : Machine ρ) (raw : Nat)
    (h : libc.malloc ((size + ALIGNMENT) % SIZE_MOD) m = (raw, m1)) (hraw : raw ≠ 0) :
    a_malloc libc size m =
      (raw + (32 - raw % 32),
       storeByte m1 (raw + (32 - raw % 32) - 1) ((32 - raw % 32 : Nat) : Int)) := by
  unfold a_malloc
  rw [h]
  have h1 := ptrAdd_alignDiff raw
  rw [alignDiff_nat] at h1
  simp only [hraw, ne_eq, not_false_eq_true, if_true, alignDiff_nat, h1]

/-- What `a_malloc` does with a null answer: it passes it on. -/
theorem a_malloc_null (libc : base_allocator ρ) (size : Nat) (m m1 : Machine ρ)
    (h : libc.malloc ((size + ALIGNMENT) % SIZE_MOD) m = (0, m1)) :
    a_malloc libc size m = (0, m1) := by
  unfold a_malloc
  rw [h]
  simp

/-- What `a_realloc` does with a non-null pointer whose header byte holds `d`: the raw block
`ptr - d` is resized to `size + d` bytes and the new raw address is displaced by `d`. -/
theorem a_realloc_spec (libc : base_allocator ρ) (ptr size d : Nat) (m m' : Machine ρ)
    (raw' : Nat) (hp : ptr ≠ 0) (hd : loadChar m (ptr - 1) = d) (hle : d ≤ ptr)
    (h : libc.realloc (ptr - d) ((size + d) % SIZE_MOD) m = (raw', m')) :
    a_realloc libc ptr size m = (if raw' ≠ 0 then raw' + d else 0, m') := by
  unfold a_realloc
  have h1 : ptrAdd ptr (-(d : Int)) = ptr - d := by unfold ptrAdd; omega
  have h2 : (((size : Int) + (d : Int)) % (SIZE_MOD : Nat)).toNat = (size + d) % SIZE_MOD := by
    have : ((size : Int) + (d : Int)) % ((SIZE_MOD : Nat) : Int)
        = (((size + d) % SIZE_MOD : Nat) : Int) := by
      push_cast
      rfl
    rw [this]
    exact Int.toNat_ofNat _
  simp only [hp, if_false, hd, h1, h2, h]
  by_cases hr : raw' = 0
  · simp [hr]
  · have h3 : ptrAdd raw' (d : Int) = raw' + d := by unfold ptrAdd; omega
    simp [hr, h3]

theorem a_malloc_fst (libc : base_allocator ρ) (size : Nat) (m : Machine ρ) :
    (a_malloc libc size m).1 =
      if (libc.malloc ((size + ALIGNMENT) % SIZE_MOD) m).1 ≠ 0 then
        (libc.malloc ((size + ALIGNMENT) % SIZE_MOD) m).1
          + (32 - (libc.malloc ((size + ALIGNMENT) % SIZE_MOD) m).1 % 32)
      else 0 := by
  unfold a_malloc
  by_cases h : (libc.malloc ((size + ALIGNMENT) % SIZE_MOD) m).1 = 0
  · simp [h]
  · simp [h, ptrAdd_alignDiff]

theorem a_malloc_dvd (libc : base_allocator ρ) (size : Nat) (m : Machine ρ) :
    32 ∣ (a_malloc libc size m).1 := by
  rw [a_malloc_fst]
  split
  · omega
  · exact Nat.dvd_zero 32

theorem bmalloc_eq (size : Nat) (func reason : String) (s : State ρ) :
    __bmalloc__ size func reason s =
      if (bmalloc_answer size s).1 = 0 then
        .aborts (oom_state size (bmalloc_answer size s).2 s)
      else
        .returns (bmalloc_answer size s).1
          { s with
            machine := (bmalloc_answer size s).2
            num_allocs := s.num_allocs + 1
            alloc_list := { ptr := (bmalloc_answer size s).1,
                            reason := concatFuncReason func reason } :: s.alloc_list } := by
  unfold __bmalloc__ bmalloc_answer
  rcases ha : s.alloc.malloc size s.machine with ⟨p0, m0⟩
  by_cases h0 : p0 = 0 ∧ size = 0
  · rcases hb : s.alloc.malloc 1 m0 with ⟨p1, m1⟩
    by_cases h1 : p1 = 0 <;>
      simp [h0, hb, h1, bcrash, os_breakpoint, oom_state, os_atomic_inc_long, addToList]
  · by_cases h1 : p0 = 0 <;>
      simp [h0, h1, bcrash, os_breakpoint, oom_state, os_atomic_inc_long, addToList]

/-- The pointer `__bmalloc__` returns is non-null and is the backend's final answer. -/
theorem bmalloc_returns {size : Nat} {func reason : String} {s s' : State ρ} {p : Nat}
    (h : __bmalloc__ size func reason s = .returns p s') :
    p ≠ 0 ∧ p = (bmalloc_answer size s).1 := by
  rw [bmalloc_eq] at h
  by_cases h1 : (bmalloc_answer size s).1 = 0
  · simp [h1] at h
  · simp only [h1, if_false, Outcome.returns.injEq] at h
    exact ⟨h.1 ▸ h1, h.1.symm⟩

theorem brealloc_eq (ptr size : Nat) (func reason : String) (s : State ρ) :
    __brealloc__ ptr size func reason s =
      if (brealloc_answer ptr size s).1 = 0 then
        .aborts (oom_state size (brealloc_answer ptr size s).2
          { s with num_allocs := brealloc_count ptr s, alloc_list := brealloc_ledger ptr s })
      else
        .returns (brealloc_answer ptr size s).1
          { s with
            machine := (brealloc_answer ptr size s).2
            num_allocs := brealloc_count ptr s
            alloc_list := { ptr := (brealloc_answer ptr size s).1,
                            reason := concatFuncReason func reason }
                          :: brealloc_ledger ptr s } := by
  obtain ⟨⟨mal, real, fr⟩, n, l, m, t⟩ := s
  unfold __brealloc__ brealloc_answer brealloc_count brealloc_ledger
  by_cases hp : ptr = 0
  · subst hp
    simp only [if_true]
    rcases ha : real 0 size m with ⟨p0, m0⟩
    by_cases h0 : p0 = 0 ∧ size = 0
    · obtain ⟨h00, h01⟩ := h0
      subst h00 h01
      rcases hb : real 0 1 m0 with ⟨p1, m1⟩
      by_cases h1 : p1 = 0 <;>
        simp [hb, h1, bcrash, os_breakpoint, oom_state, os_atomic_inc_long, addToList]
    · by_cases h1 : p0 = 0
      · have hs : size ≠ 0 := fun h => h0 ⟨h1, h⟩
        simp [hs, h1, bcrash, os_breakpoint, oom_state, os_atomic_inc_long, addToList]
      · simp [h1, bcrash, os_breakpoint, oom_state, os_atomic_inc_long, addToList]
  · simp only [hp, if_false]
    rcases ha : real ptr size m with ⟨p0, m0⟩
    by_cases h0 : p0 = 0 ∧ size = 0
    · obtain ⟨h00, h01⟩ := h0
      subst h00 h01
      rcases hb : real 0 1 m0 with ⟨p1, m1⟩
      by_cases h1 : p1 = 0 <;>
        simp [hb, h1, bcrash, os_breakpoint, oom_state, addToList]
    · by_cases h1 : p0 = 0
      · have hs : size ≠ 0 := fun h => h0 ⟨h1, h⟩
        simp [hs, h1, bcrash, os_breakpoint, oom_state, addToList]
      · simp [h1, bcrash, os_breakpoint, oom_state, addToList]

/-- The pointer `__brealloc__` returns is non-null and is the backend's final answer; the
state it leaves is the one described by `brealloc_eq`. -/
theorem brealloc_returns {ptr size : Nat} {func reason : String} {s s' : State ρ} {q : Nat}
    (h : __brealloc__ ptr size func reason s = .returns q s') :
    q ≠ 0 ∧ q = (brealloc_answer ptr size s).1 ∧
      s'.machine = (brealloc_answer ptr size s).2 ∧
      s'.num_allocs = brealloc_count ptr s ∧
      s'.alloc_list = { ptr := q, reason := concatFuncReason func reason }
                        :: brealloc_ledger ptr s ∧
      s'.alloc = s.alloc ∧ s'.trace = s.trace := by
  rw [brealloc_eq] at h
  by_cases h1 : (brealloc_answer ptr size s).1 = 0
  · simp [h1] at h
  · simp only [h1, if_false, Outcome.returns.injEq] at h
    obtain ⟨hq, hs⟩ := h
    subst hs
    exact ⟨hq ▸ h1, hq.symm, rfl, rfl, by rw [hq], rfl, rfl⟩

/-- The state `__bmalloc__` leaves when it returns. -/
theorem bmalloc_returns_state {size : Nat} {func reason : String} {s s' : State ρ} {p : Nat}
    (h : __bmalloc__ size func reason s = .returns p s') :
    s'.machine = (bmalloc_answer size s).2 ∧
      s'.num_allocs = s.num_allocs + 1 ∧
      s'.alloc_list = { ptr := p, reason := concatFuncReason func reason } :: s.alloc_list ∧
      s'.alloc = s.alloc ∧ s'.trace = s.trace := by
  rw [bmalloc_eq] at h
  by_cases h1 : (bmalloc_answer size s).1 = 0
  · simp [h1] at h
  · simp only [h1, if_false, Outcome.returns.injEq] at h
    obtain ⟨hq, hs⟩ := h
    subst hs
    exact ⟨rfl, rfl, by rw [hq], rfl, rfl⟩

/-! ## C1 -/

/-- C1: with the default backend, whatever the size and whatever address the platform
`malloc` answers, the address `a_malloc` returns is a multiple of `base_get_alignment() = 32`
(and is non-null when the platform's answer is); hence so is every pointer returned by
`__bmalloc__`. -/
theorem a_malloc_aligned (libc : base_allocator ρ) (size : Nat) (m : Machine ρ) :
    base_get_alignment = 32 ∧
    base_get_alignment ∣ ((a_malloc libc size m).1 : Int) ∧
    ((libc.malloc ((size + ALIGNMENT) % SIZE_MOD) m).1 ≠ 0 → (a_malloc libc size m).1 ≠ 0) ∧
    ∀ (func reason : String) (s s' : State ρ) (p : Nat), s.alloc = default_alloc libc →
      __bmalloc__ size func reason s = .returns p s' →
      p ≠ 0 ∧ base_get_alignment ∣ (p : Int) := by
  have hal : base_get_alignment = ((32 : Nat) : Int) := rfl
  refine ⟨rfl, ?_, ?_, ?_⟩
  · rw [hal]
    exact Int.natCast_dvd_natCast.mpr (a_malloc_dvd libc size m)
  · intro h
    rw [a_malloc_fst, if_pos h]
    omega
  · intro func reason s s' p hs h
    obtain ⟨hp, hq⟩ := bmalloc_returns h
    refine ⟨hp, ?_⟩
    rw [hal, Int.natCast_dvd_natCast, hq]
    unfold bmalloc_answer
    rw [hs]
    split <;> exact a_malloc_dvd libc _ _

/-- C1 on an explicit input: the platform answers the raw address 4112 = 0x1010, which is
not a multiple of 32, and `__bmalloc__(16)` returns 4128. -/
theorem a_malloc_aligned_witness :
    (bump.malloc ((16 + ALIGNMENT) % SIZE_MOD) (machineAt 4112)).1 = 4112 ∧
    (a_malloc bump 16 (machineAt 4112)).1 = 4128 ∧
    (∃ s', __bmalloc__ 16 "f" "r" (initial bump (machineAt 4112)) = .returns 4128 s') ∧
    base_get_alignment ∣ ((4128 : Nat) : Int) :=
  ⟨rfl, by decide, ⟨_, rfl⟩,
   ((a_malloc_aligned bump 16 (machineAt 4112)).2.2.2 "f" "r" (initial bump (machineAt 4112))
      _ 4128 rfl rfl).2⟩

/-! ## C2 -/

/-- C2 fails on the code. The platform `malloc` answers 4112 = 0x1010 (16 mod 32), so
`__bmalloc__(16)` returns 4128 with offset 16; the platform `realloc` moves the block to
4160 = 0x1040 (0 mod 32), and `a_realloc` adds the old offset: `__brealloc__` returns
4176, which is 16 mod 32 and not a multiple of `base_get_alignment()`. -/
theorem brealloc_misaligned :
    ∃ s1 s2 : State BumpHeap,
      __bmalloc__ 16 "f" "r" (initial bump (machineAt 4112)) = .returns 4128 s1 ∧
      __brealloc__ 4128 64 "f" "r" s1 = .returns 4176 s2 ∧
      ¬ base_get_alignment ∣ ((4176 : Nat) : Int) :=
  ⟨_, _, rfl, rfl, by decide⟩

/-! ## C3 -/

/-- The bump platform's `realloc` preserves the first `min(old, new)` bytes of the block. -/
theorem bump_realloc_preserves (p n : Nat) (m m' : Machine BumpHeap) (raw' : Nat) (hp : p ≠ 0)
    (h : bump.realloc p n m = (raw', m')) (i : Nat) (hi : i < min (m.heap.size p) n) :
    m'.mem (raw' + i) = m.mem (p + i) := by
  simp only [bump, Prod.mk.injEq] at h
  obtain ⟨h1, h2⟩ := h
  subst h1 h2
  have h3 : m.heap.brk + i - m.heap.brk + p = p + i := by omega
  simp only [ne_eq, hp, not_false_eq_true, Nat.le_add_right, Nat.add_lt_add_iff_left, hi,
    and_self, if_true, h3]

/-- C3, as the code has it: with the default backend, for sizes up to `SIZE_MAX - 32`, take
`p` from `__bmalloc__(oldSize)`, let the caller fill the block (the header byte at `p - 1`
is not touched), and let the platform `realloc` preserve the first `min(old, new)` bytes of
the raw block, which was requested with `oldSize + 32` bytes. Then the first `min(oldSize, newSize)` bytes at the
pointer `__brealloc__(p, newSize)` returns are the bytes that were at `p`. -/
theorem brealloc_preserves_content (libc : base_allocator ρ) (oldSize newSize : Nat)
    (func reason func' reason' : String) (s0 s1 s3 : State ρ) (m2 : Machine ρ) (p q : Nat)
    (hold : oldSize ≤ SIZE_MOD - 1 - ALIGNMENT) (hnew : newSize ≤ SIZE_MOD - 1 - ALIGNMENT)
    (hs : s0.alloc = default_alloc libc)
    (hm : __bmalloc__ oldSize func reason s0 = .returns p s1)
    (hw : m2.mem (p - 1) = s1.machine.mem (p - 1))
    (hpres : ∀ n raw' m',
      libc.realloc (ptrAdd p (-(loadChar s1.machine (p - 1)))) n m2 = (raw', m') → raw' ≠ 0 →
      ∀ i, i < min ((oldSize + ALIGNMENT) % SIZE_MOD) n →
        m'.mem (raw' + i) = m2.mem (ptrAdd p (-(loadChar s1.machine (p - 1))) + i))
    (hr : __brealloc__ p newSize func' reason' { s1 with machine := m2 } = .returns q s3) :
    ∀ j, j < min oldSize newSize → s3.machine.mem (q + j) = m2.mem (p + j) := by
  intro j hj
  have hj1 : j < oldSize := lt_of_lt_of_le hj (min_le_left _ _)
  have hj2 : j < newSize := lt_of_lt_of_le hj (min_le_right _ _)
  have hA : ALIGNMENT = 32 := rfl
  have hS : SIZE_MOD = 18446744073709551616 := by decide
  rw [hA, hS] at hold hnew
  obtain ⟨hp, hpa⟩ := bmalloc_returns hm
  obtain ⟨hm1, -, -, hal, -⟩ := bmalloc_returns_state hm
  have hos : oldSize ≠ 0 := by omega
  have hans : bmalloc_answer oldSize s0 = a_malloc libc oldSize s0.machine := by
    unfold bmalloc_answer
    rw [hs]
    simp [hos, default_alloc]
  rw [hans] at hpa hm1
  rcases hraw : libc.malloc ((oldSize + ALIGNMENT) % SIZE_MOD) s0.machine with ⟨raw, m1⟩
  by_cases hr0 : raw = 0
  · subst hr0
    rw [a_malloc_null _ _ _ _ hraw] at hpa
    exact absurd hpa hp
  rw [a_malloc_spec _ _ _ _ _ hraw hr0] at hpa hm1
  simp only at hpa hm1
  have hd1 : 32 - raw % 32 < 128 := by omega
  have hd2 : 32 - raw % 32 ≤ p := by omega
  have hd3 : p - (32 - raw % 32) = raw := by omega
  have hd4 : 32 - raw % 32 ≤ 32 := by omega
  generalize 32 - raw % 32 = d at hpa hm1 hd1 hd2 hd3 hd4
  have hload : loadChar s1.machine (p - 1) = d := by
    rw [hm1, hpa]
    exact loadChar_storeByte _ _ _ hd1
  have hload2 : loadChar m2 (p - 1) = d := by rw [loadChar_congr _ _ _ hw, hload]
  have hraw_eq : ptrAdd p (-(loadChar s1.machine (p - 1))) = raw := by
    rw [hload]
    unfold ptrAdd
    omega
  rw [hraw_eq] at hpres
  obtain ⟨hq, hqa, hm3, -⟩ := brealloc_returns hr
  have hns : newSize ≠ 0 := by omega
  have hans2 : brealloc_answer p newSize { s1 with machine := m2 }
      = a_realloc libc p newSize m2 := by
    unfold brealloc_answer
    simp [hns, hal, hs, default_alloc]
  rw [hans2] at hqa hm3
  rcases hre : libc.realloc (p - d) ((newSize + d) % SIZE_MOD) m2 with ⟨raw', m'⟩
  rw [a_realloc_spec libc p newSize d m2 m' raw' hp hload2 hd2 hre] at hqa hm3
  by_cases hr' : raw' = 0
  · simp only [hr', ne_eq, not_true_eq_false, if_false] at hqa
    exact absurd hqa hq
  simp only [hr', ne_eq, not_false_eq_true, if_true] at hqa hm3
  have hmod : (newSize + d) % SIZE_MOD = newSize + d := Nat.mod_eq_of_lt (by rw [hS]; omega)
  rw [hd3, hmod] at hre
  have hmod0 : (oldSize + ALIGNMENT) % SIZE_MOD = oldSize + 32 :=
    Nat.mod_eq_of_lt (by rw [hA, hS]; omega)
  have hfin := hpres _ _ _ hre hr' (d + j) (by rw [hmod0]; exact lt_min (by omega) (by omega))
  rw [hm3, hqa, hpa, Nat.add_assoc, Nat.add_assoc]
  exact hfin

/-- C3 fails for sizes above `SIZE_MAX - 32`. New size: the block of 4 bytes at 4128 (raw
block 4112, offset 16) is resized to `SIZE_MAX` bytes; `size + diff` wraps to 15, the
platform `realloc` moves the raw block to 4160 and preserves its first `min(36, 15)`
bytes, and `__brealloc__` returns 4176, where the first byte is not the 7 that was at 4128.
Old size: the block of `SIZE_MAX - 15` bytes at 4128 sits on a raw block of 16 bytes;
resized to 64 bytes, the platform preserves the first `min(16, 80)` bytes of the raw block
and `__brealloc__` returns 4144, where the first byte is not the 7 that was at 4128. -/
theorem brealloc_content_lost :
    ((__bmalloc__ 4 "f" "r" (initial bump (machineAt 4112))).value = some 4128 ∧
     (__brealloc__ 4128 18446744073709551615 "f" "r" filled_block).value = some 4176 ∧
     (bump.realloc 4112 15 filled_block.machine).1 = 4160 ∧
     (∀ i, i < min 36 15 →
       (bump.realloc 4112 15 filled_block.machine).2.mem (4160 + i)
         = filled_block.machine.mem (4112 + i)) ∧
     0 < min 4 18446744073709551615 ∧
     filled_block.machine.mem (4128 + 0) = 7 ∧
     (__brealloc__ 4128 18446744073709551615 "f" "r" filled_block).state.machine.mem (4176 + 0)
       = 0) ∧
    ((__bmalloc__ 18446744073709551600 "f" "r" (initial bump (machineAt 4112))).value
       = some 4128 ∧
     (__brealloc__ 4128 64 "f" "r" overflown_block).value = some 4144 ∧
     (bump.realloc 4112 80 overflown_block.machine).1 = 4128 ∧
     (∀ i, i < min 16 80 →
       (bump.realloc 4112 80 overflown_block.machine).2.mem (4128 + i)
         = overflown_block.machine.mem (4112 + i)) ∧
     0 < min 18446744073709551600 64 ∧
     overflown_block.machine.mem (4128 + 0) = 7 ∧
     (__brealloc__ 4128 64 "f" "r" overflown_block).state.machine.mem (4144 + 0) = 0) :=
  ⟨⟨rfl, rfl, rfl,
    fun i hi => bump_realloc_preserves 4112 15 filled_block.machine _ 4160 (by decide) rfl i hi,
    by decide, rfl, rfl⟩,
   ⟨rfl, rfl, rfl,
    fun i hi => bump_realloc_preserves 4112 80 overflown_block.machine _ 4128 (by decide) rfl
      i hi,
    by decide, rfl, rfl⟩⟩

/-- C3 on an explicit input: a block of 4 bytes at 4128 holding a 7 in its first byte is
grown to 64 bytes; the platform moves it, `__brealloc__` returns 4176, and the first byte
there is 7. -/
theorem brealloc_preserves_content_witness :
    __bmalloc__ 4 "f" "r" (initial bump (machineAt 4112))
      = .returns 4128 (__bmalloc__ 4 "f" "r" (initial bump (machineAt 4112))).state ∧
    (__brealloc__ 4128 64 "f" "r"
      { (__bmalloc__ 4 "f" "r" (initial bump (machineAt 4112))).state with
        machine := storeByte (__bmalloc__ 4 "f" "r" (initial bump (machineAt 4112))).state.machine
          4128 7 }).value = some 4176 ∧
    (__brealloc__ 4128 64 "f" "r"
      { (__bmalloc__ 4 "f" "r" (initial bump (machineAt 4112))).state with
        machine := storeByte (__bmalloc__ 4 "f" "r" (initial bump (machineAt 4112))).state.machine
          4128 7 }).state.machine.mem (4176 + 0) = 7 :=
  ⟨rfl, rfl,
   brealloc_preserves_content bump 4 64 "f" "r" "f" "r" (initial bump (machineAt 4112))
     (__bmalloc__ 4 "f" "r" (initial bump (machineAt 4112))).state _
     (storeByte (__bmalloc__ 4 "f" "r" (initial bump (machineAt 4112))).state.machine 4128 7)
     4128 4176 (by decide) (by decide) rfl rfl rfl
     (fun n raw' m' h _ i hi =>
       bump_realloc_preserves _ n _ m' raw' (by decide) h i hi)
     rfl 0 (by decide)⟩

/-! ## C4 -/

/-- C4: for every backend, size and pointer, `__bmalloc__` and `__brealloc__` never return
null. Each call aborts exactly when the backend's answer is null (for a zero size: when the
answer to the retried one-byte request is null as well), and when it aborts it has called
`os_breakpoint` and then `bcrash` with the requested size, and nothing else. -/
theorem bmalloc_brealloc_never_null (size ptr : Nat) (func reason : String) (s : State ρ) :
    (∀ p, (__bmalloc__ size func reason s).value = some p → p ≠ 0) ∧
    ((__bmalloc__ size func reason s).value = none ↔
      (s.alloc.malloc size s.machine).1 = 0 ∧
      (size = 0 → (s.alloc.malloc 1 (s.alloc.malloc size s.machine).2).1 = 0)) ∧
    ((__bmalloc__ size func reason s).value = none →
      (__bmalloc__ size func reason s).state.trace =
        s.trace ++ [Effect.os_breakpoint, Effect.bcrash oom_format (size % SIZE_MOD)]) ∧
    (∀ q, (__brealloc__ ptr size func reason s).value = some q → q ≠ 0) ∧
    ((__brealloc__ ptr size func reason s).value = none ↔
      (s.alloc.realloc ptr size s.machine).1 = 0 ∧
      (size = 0 → (s.alloc.realloc 0 1 (s.alloc.realloc ptr size s.machine).2).1 = 0)) ∧
    ((__brealloc__ ptr size func reason s).value = none →
      (__brealloc__ ptr size func reason s).state.trace =
        s.trace ++ [Effect.os_breakpoint, Effect.bcrash oom_format (size % SIZE_MOD)]) := by
  have hm : (bmalloc_answer size s).1 = 0 ↔
      (s.alloc.malloc size s.machine).1 = 0 ∧
      (size = 0 → (s.alloc.malloc 1 (s.alloc.malloc size s.machine).2).1 = 0) := by
    unfold bmalloc_answer
    by_cases h1 : size = 0
    · subst h1
      by_cases h0 : (s.alloc.malloc 0 s.machine).1 = 0 <;> simp [h0]
    · by_cases h0 : (s.alloc.malloc size s.machine).1 = 0 <;> simp [h0, h1]
  have hr : (brealloc_answer ptr size s).1 = 0 ↔
      (s.alloc.realloc ptr size s.machine).1 = 0 ∧
      (size = 0 → (s.alloc.realloc 0 1 (s.alloc.realloc ptr size s.machine).2).1 = 0) := by
    unfold brealloc_answer
    by_cases h1 : size = 0
    · subst h1
      by_cases h0 : (s.alloc.realloc ptr 0 s.machine).1 = 0 <;> simp [h0]
    · by_cases h0 : (s.alloc.realloc ptr size s.machine).1 = 0 <;> simp [h0, h1]
  rw [← hm, ← hr, bmalloc_eq, brealloc_eq]
  by_cases h1 : (bmalloc_answer size s).1 = 0 <;>
    by_cases h2 : (brealloc_answer ptr size s).1 = 0 <;>
    simp [h1, h2, Outcome.value, Outcome.state, oom_state]

/-! ## C5 -/

/-- C5: when the backend answers null to the zero-byte request and the non-null `q` to the
one-byte request that follows, `__bmalloc__(0)` and `__brealloc__(p, 0)` return `q` without
aborting; the counter and the ledger are updated as in every returning call (counter up by
one for `__bmalloc__` and for a null `p`; old record of `p` removed, record of `q` put in
front). -/
theorem zero_size_retry (func reason : String) (s : State ρ) (p q q' : Nat)
    (m1 m2 m1' m2' : Machine ρ)
    (h0 : s.alloc.malloc 0 s.machine = (0, m1)) (h1 : s.alloc.malloc 1 m1 = (q, m2))
    (hq : q ≠ 0)
    (h0' : s.alloc.realloc p 0 s.machine = (0, m1')) (h1' : s.alloc.realloc 0 1 m1' = (q', m2'))
    (hq' : q' ≠ 0) :
    __bmalloc__ 0 func reason s =
      .returns q { s with
        machine := m2
        num_allocs := s.num_allocs + 1
        alloc_list := { ptr := q, reason := concatFuncReason func reason } :: s.alloc_list } ∧
    __brealloc__ p 0 func reason s =
      .returns q' { s with
        machine := m2'
        num_allocs := if p = 0 then s.num_allocs + 1 else s.num_allocs
        alloc_list := { ptr := q', reason := concatFuncReason func reason } ::
          (if p = 0 then s.alloc_list else removeFromList s.alloc_list p) } := by
  have ha : bmalloc_answer 0 s = (q, m2) := by
    unfold bmalloc_answer
    rw [h0]
    simp [h1]
  have hb : brealloc_answer p 0 s = (q', m2') := by
    unfold brealloc_answer
    rw [h0']
    simp [h1']
  constructor
  · rw [bmalloc_eq, ha]
    simp [hq]
  · rw [brealloc_eq, hb]
    simp [hq', brealloc_count, brealloc_ledger]

/-- C5 on an explicit input: the backend `nozero` answers null to both zero-byte requests
and 80 to the one-byte requests. -/
theorem zero_size_retry_witness :
    (nozero.malloc 0 (machineAt 80)).1 = 0 ∧ (nozero.realloc 64 0 (machineAt 80)).1 = 0 ∧
    __bmalloc__ 0 "f" "r" nozero_state =
      .returns 80 { nozero_state with
        machine := (bump.malloc 1 (machineAt 80)).2
        num_allocs := 1 + 1
        alloc_list := [{ ptr := 80, reason := concatFuncReason "f" "r" },
                       { ptr := 64, reason := "g x" }] } ∧
    __brealloc__ 64 0 "f" "r" nozero_state =
      .returns 80 { nozero_state with
        machine := (bump.realloc 0 1 (machineAt 80)).2
        num_allocs := 1
        alloc_list := [{ ptr := 80, reason := concatFuncReason "f" "r" }] } :=
  ⟨rfl, rfl,
   zero_size_retry "f" "r" nozero_state 64 80 80 (machineAt 80) (bump.malloc 1 (machineAt 80)).2
     (machineAt 80) (bump.realloc 0 1 (machineAt 80)).2 rfl rfl (by decide) rfl rfl (by decide)⟩

/-! ## C6 -/

/-- One returning call changes the counter by what `allocates` and `releases` say. -/
theorem exec_num_allocs (c : Call ρ) (s s1 : State ρ) (r : Option Nat)
    (h : c.exec s = .returns r s1) :
    s1.num_allocs = s.num_allocs + (if c.allocates then 1 else 0)
      - (if c.releases then 1 else 0) := by
  cases c with
  | bmalloc size func reason =>
    simp only [Call.exec] at h
    cases hm : __bmalloc__ size func reason s with
    | aborts t => rw [hm] at h; simp at h
    | returns p t =>
      rw [hm] at h
      simp only [Outcome.returns.injEq] at h
      obtain ⟨-, hn, -⟩ := bmalloc_returns_state hm
      rw [← h.2, hn]
      simp [Call.allocates, Call.releases]
  | brealloc ptr size func reason =>
    simp only [Call.exec] at h
    cases hm : __brealloc__ ptr size func reason s with
    | aborts t => rw [hm] at h; simp at h
    | returns p t =>
      rw [hm] at h
      simp only [Outcome.returns.injEq] at h
      obtain ⟨-, -, -, hn, -⟩ := brealloc_returns hm
      rw [← h.2, hn]
      by_cases hp : ptr = 0 <;> simp [Call.allocates, Call.releases, brealloc_count, hp]
  | bfree ptr =>
    simp only [Call.exec, Outcome.returns.injEq] at h
    rw [← h.2]
    by_cases hp : ptr = 0 <;>
      simp [Call.allocates, Call.releases, bfree, os_atomic_dec_long, hp, sub_eq_add_neg]
  | bmem_print_leaks =>
    simp only [Call.exec, Outcome.returns.injEq] at h
    rw [← h.2]
    simp [Call.allocates, Call.releases, bmem_print_leaks]
  | base_set_allocator defs =>
    simp only [Call.exec, Outcome.returns.injEq] at h
    rw [← h.2]
    simp [Call.allocates, Call.releases, base_set_allocator]

/-- The counter after a run of returning calls. -/
theorem run_num_allocs (calls : List (Call ρ)) (s s' : State ρ) (h : run calls s = some s') :
    s'.num_allocs = s.num_allocs + (calls.countP Call.allocates : Nat)
      - (calls.countP Call.releases : Nat) := by
  induction calls generalizing s with
  | nil =>
    simp only [run, Option.some.injEq] at h
    simp [h]
  | cons c cs ih =>
    simp only [run] at h
    cases hc : c.exec s with
    | aborts t => rw [hc] at h; simp at h
    | returns r t =>
      rw [hc] at h
      simp only at h
      rw [ih t h, exec_num_allocs c s t r hc, List.countP_cons, List.countP_cons]
      push_cast
      ring

/-- C6: starting from a counter of 0, after any finite serial sequence of returning calls
`bnum_allocs()` is the number of `bmalloc` calls and `brealloc` calls with a null pointer,
minus the number of `bfree` calls with a non-null pointer; `brealloc` of a non-null
pointer, `bfree(NULL)`, `bmem_print_leaks` and `base_set_allocator` leave the counter as
it was. -/
theorem bnum_allocs_counts (calls : List (Call ρ)) (s s' : State ρ)
    (h0 : s.num_allocs = 0) (hrun : run calls s = some s') :
    bnum_allocs s' = (calls.countP Call.allocates : Nat) - (calls.countP Call.releases : Nat) ∧
    (∀ (t t' : State ρ) (ptr size q : Nat) (func reason : String), ptr ≠ 0 →
      __brealloc__ ptr size func reason t = .returns q t' → bnum_allocs t' = bnum_allocs t) ∧
    (∀ t : State ρ, bnum_allocs (bfree 0 t) = bnum_allocs t) ∧
    (∀ t : State ρ, bnum_allocs (bmem_print_leaks t) = bnum_allocs t) ∧
    (∀ (t : State ρ) (defs : base_allocator ρ),
      bnum_allocs (base_set_allocator defs t) = bnum_allocs t) := by
  refine ⟨?_, ?_, ?_, ?_, ?_⟩
  · have h := run_num_allocs calls s s' hrun
    rw [h0, zero_add] at h
    exact h
  · intro t t' ptr size q func reason hp h
    obtain ⟨-, -, -, hn, -⟩ := brealloc_returns h
    simp [bnum_allocs, hn, brealloc_count, hp]
  · intro t
    simp [bnum_allocs, bfree]
  · intro t
    simp [bnum_allocs, bmem_print_leaks]
  · intro t defs
    simp [bnum_allocs, base_set_allocator]

/-- C6 on an explicit input: the six calls of `session` all return and leave the counter
at 2 - 1 = 1. -/
theorem bnum_allocs_counts_witness :
    ∃ s', run session (initial bump (machineAt 4112)) = some s' ∧ bnum_allocs s' = 1 :=
  ⟨_, rfl, (bnum_allocs_counts session (initial bump (machineAt 4112)) _ rfl rfl).1⟩

/-! ## C7 -/

/-- The text `concatFuncReason` produces is `func`, a blank and `reason` without the last
character: the buffer has room for `strlen(func) + strlen(reason)` characters and the NUL. -/
theorem concatFuncReason_data (func reason : String)
    (h : func.length + reason.length + 1 < SIZE_MOD) :
    (concatFuncReason func reason).data = (func.data ++ ' ' :: reason.data).dropLast := by
  unfold concatFuncReason snprintf_s_s
  rw [Nat.mod_eq_of_lt h, List.dropLast_eq_take]
  have hl : (func.data ++ ' ' :: reason.data).length - 1
      = func.length + reason.length + 1 - 1 := by
    rw [List.length_append, List.length_cons]
    rfl
  rw [hl]

/-- C7 fails on the code: `__bmalloc__(16, "f", "R1")` on an empty ledger returns 4128 and
leaves exactly one record, for 4128, but the text it stores, and `bmem_print_leaks` emits,
is "f R": the last character of the reason is cut, so "R1" is not contained in it. -/
theorem reason_truncated :
    (__bmalloc__ 16 "f" "R1" (initial bump (machineAt 4112))).value = some 4128 ∧
    (__bmalloc__ 16 "f" "R1" (initial bump (machineAt 4112))).state.alloc_list
      = [{ ptr := 4128, reason := "f R" }] ∧
    (bmem_print_leaks (__bmalloc__ 16 "f" "R1" (initial bump (machineAt 4112))).state).trace
      = [Effect.blog leak_format 4128 "f R"] ∧
    ¬ ("R1".data <:+: "f R".data) :=
  ⟨rfl, by decide, by decide, by decide⟩

/-! ## C8 -/

/-- On a ledger with at most one record per address, `removeFromList` drops every record
of the address and keeps the others in order. -/
theorem removeFromList_eq_filter (l : List s_alloc_list) (a : Nat)
    (h : (l.map (fun r => r.ptr)).Nodup) :
    removeFromList l a = l.filter (fun r => r.ptr != a) := by
  induction l with
  | nil => rfl
  | cons curr next ih =>
    rw [List.map_cons, List.nodup_cons] at h
    unfold removeFromList
    by_cases hc : curr.ptr = a
    · have hn : List.filter (fun r => r.ptr != a) next = next := by
        rw [List.filter_eq_self]
        intro r hr
        have : r.ptr ≠ a := by
          intro hra
          exact h.1 (List.mem_map.mpr ⟨r, hr, hra.trans hc.symm⟩)
        simpa using this
      simp [hc, hn]
    · simp [hc, ih h.2]

theorem ledgerInv_filter (s : State ρ) (live : List Nat) (a : Nat) (h : LedgerInv s live) :
    ((s.alloc_list.filter (fun r => r.ptr != a)).map (fun r => r.ptr)).Nodup ∧
    ∀ r ∈ s.alloc_list.filter (fun r => r.ptr != a),
      r.ptr ≠ 0 ∧ r.ptr ∈ live.filter (fun b => b != a) := by
  refine ⟨List.Nodup.sublist ((List.filter_sublist _).map _) h.1, ?_⟩
  intro r hr
  rw [List.mem_filter] at hr
  refine ⟨(h.2 r hr.1).1, ?_⟩
  rw [List.mem_filter]
  exact ⟨(h.2 r hr.1).2, hr.2⟩

/-- Under the invariant, what `__brealloc__` and `bfree` do to the ledger for the pointer
they are given (nothing for a null pointer, `removeFromList` otherwise) is a filter. -/
theorem ledger_release_eq (s : State ρ) (live : List Nat) (a : Nat) (h : LedgerInv s live) :
    (if a = 0 then s.alloc_list else removeFromList s.alloc_list a)
      = s.alloc_list.filter (fun r => r.ptr != a) := by
  by_cases ha : a = 0
  · subst ha
    rw [if_pos rfl]
    symm
    rw [List.filter_eq_self]
    intro r hr
    simpa using (h.2 r hr).1
  · rw [if_neg ha]
    exact removeFromList_eq_filter _ _ h.1

/-- Putting the record of a fresh non-null address in front keeps the invariant. -/
theorem ledgerInv_cons (l : List s_alloc_list) (live : List Nat) (q : Nat) (text : String)
    (hq : q ≠ 0) (hnd : (l.map (fun r => r.ptr)).Nodup)
    (hmem : ∀ r ∈ l, r.ptr ≠ 0 ∧ r.ptr ∈ live) (hfresh : ∀ r ∈ l, r.ptr ≠ q) :
    ((({ ptr := q, reason := text } : s_alloc_list) :: l).map (fun r => r.ptr)).Nodup ∧
    ∀ r ∈ ({ ptr := q, reason := text } : s_alloc_list) :: l,
      r.ptr ≠ 0 ∧ r.ptr ∈ q :: live := by
  constructor
  · rw [List.map_cons, List.nodup_cons]
    refine ⟨?_, hnd⟩
    intro hin
    obtain ⟨r, hr, hrq⟩ := List.mem_map.mp hin
    exact hfresh r hr hrq
  · intro r hr
    rcases List.mem_cons.mp hr with h | h
    · subst h
      exact ⟨hq, List.mem_cons_self _ _⟩
    · exact ⟨(hmem r h).1, List.mem_cons_of_mem _ (hmem r h).2⟩

theorem print_leaks_loop_eq (l : List s_alloc_list) (trace : List Effect) :
    print_leaks_loop l trace
      = ([], trace ++ l.map (fun r => Effect.blog leak_format r.ptr r.reason)) := by
  induction l generalizing trace with
  | nil => simp [print_leaks_loop]
  | cons node next ih => simp [print_leaks_loop, ih]

/-- One returning call with a fresh answer keeps the invariant. -/
theorem exec_ledgerInv (c : Call ρ) (s s1 : State ρ) (r : Option Nat) (live : List Nat)
    (hinv : LedgerInv s live) (h : c.exec s = .returns r s1) (hf : c.fresh r live = true) :
    LedgerInv s1 (c.live r live) := by
  cases c with
  | bmalloc size func reason =>
    simp only [Call.exec] at h
    cases hm : __bmalloc__ size func reason s with
    | aborts t => rw [hm] at h; simp at h
    | returns p t =>
      rw [hm] at h
      simp only [Outcome.returns.injEq] at h
      obtain ⟨hr, ht⟩ := h
      subst hr ht
      obtain ⟨hp, -⟩ := bmalloc_returns hm
      obtain ⟨-, -, hl, -⟩ := bmalloc_returns_state hm
      simp only [Call.fresh, Bool.not_eq_true', List.contains_eq_any_beq, List.any_eq_false,
        beq_iff_eq] at hf
      unfold LedgerInv
      rw [hl]
      exact ledgerInv_cons _ _ _ _ hp hinv.1 hinv.2
        (fun r hr hrp => hf _ (hinv.2 r hr).2 hrp.symm)
  | brealloc ptr size func reason =>
    simp only [Call.exec] at h
    cases hm : __brealloc__ ptr size func reason s with
    | aborts t => rw [hm] at h; simp at h
    | returns q t =>
      rw [hm] at h
      simp only [Outcome.returns.injEq] at h
      obtain ⟨hr, ht⟩ := h
      subst hr ht
      obtain ⟨hq, -, -, -, hl, -⟩ := brealloc_returns hm
      unfold brealloc_ledger at hl
      rw [ledger_release_eq s live ptr hinv] at hl
      obtain ⟨hnd, hmem⟩ := ledgerInv_filter s live ptr hinv
      simp only [Call.fresh, Bool.or_eq_true, beq_iff_eq, Bool.not_eq_true',
        List.contains_eq_any_beq, List.any_eq_false] at hf
      unfold LedgerInv
      rw [hl]
      refine ledgerInv_cons _ _ _ _ hq hnd hmem ?_
      intro r hr hrq
      have hr2 := hmem r hr
      rw [List.mem_filter] at hr hr2
      rcases hf with hf | hf
      · have := hr.2
        simp only [bne_iff_ne, ne_eq] at this
        exact this (hrq.trans hf)
      · exact hf _ hr2.2.1 hrq.symm
  | bfree ptr =>
    simp only [Call.exec, Outcome.returns.injEq] at h
    obtain ⟨-, ht⟩ := h
    subst ht
    have hl : (bfree ptr s).alloc_list = s.alloc_list.filter (fun r => r.ptr != ptr) := by
      rw [← ledger_release_eq s live ptr hinv]
      by_cases hp : ptr = 0 <;> simp [bfree, hp]
    unfold LedgerInv
    rw [hl]
    exact ledgerInv_filter s live ptr hinv
  | bmem_print_leaks =>
    simp only [Call.exec, Outcome.returns.injEq] at h
    obtain ⟨-, ht⟩ := h
    subst ht
    simp [LedgerInv, bmem_print_leaks, print_leaks_loop_eq]
  | base_set_allocator defs =>
    simp only [Call.exec, Outcome.returns.injEq] at h
    obtain ⟨-, ht⟩ := h
    subst ht
    exact hinv

/-- The invariant holds along a run all of whose answers are fresh. -/
theorem run_ledgerInv (calls : List (Call ρ)) (s s' : State ρ) (live : List Nat)
    (hinv : LedgerInv s live) (hf : freshRun calls s live = true)
    (h : run calls s = some s') : ∃ live', LedgerInv s' live' := by
  induction calls generalizing s live with
  | nil =>
    simp only [run, Option.some.injEq] at h
    exact ⟨live, h ▸ hinv⟩
  | cons c cs ih =>
    simp only [run] at h
    simp only [freshRun] at hf
    cases hc : c.exec s with
    | aborts t => rw [hc] at h; simp at h
    | returns r t =>
      rw [hc] at h hf
      simp only [Bool.and_eq_true] at h hf
      exact ih t _ (exec_ledgerInv c s t r live hinv hc hf.1) hf.2 h

/-- C8: starting from an empty ledger, if the backend never answers with an address that
is allocated and not yet released, then after every serial sequence of returning calls the
ledger holds at most one record for any address. -/
theorem ledger_one_record_per_address (calls : List (Call ρ)) (s s' : State ρ)
    (h0 : s.alloc_list = []) (hfresh : freshRun calls s [] = true)
    (hrun : run calls s = some s') (a : Nat) :
    s'.alloc_list.countP (fun r => r.ptr == a) ≤ 1 := by
  have hinit : LedgerInv s [] := by
    unfold LedgerInv
    rw [h0]
    simp
  obtain ⟨live', hinv⟩ := run_ledgerInv calls s s' [] hinit hfresh hrun
  have h := List.nodup_iff_count_le_one.mp hinv.1 a
  rw [List.count_eq_countP, List.countP_map] at h
  exact h

/-- C8 on an explicit input: the calls of `session` on the bump platform, which never
hands out an address twice; the ledger ends with the one record of 4224. -/
theorem ledger_one_record_per_address_witness :
    ∃ s', run session (initial bump (machineAt 4112)) = some s' ∧
      s'.alloc_list.map (fun r => r.ptr) = [4224] ∧
      s'.alloc_list.countP (fun r => r.ptr == 4224) ≤ 1 :=
  ⟨_, rfl, rfl,
   ledger_one_record_per_address session (initial bump (machineAt 4112)) _ rfl rfl rfl 4224⟩

/-! ## C9 -/

/-- C9 fails when the backend answers with an address that has a record of its own: the
ledger of `scratch_state` has one record per address, `__brealloc__(64, 8)` returns 96, and
the ledger then holds two records for 96. -/
theorem brealloc_duplicate_record :
    (scratch_state.alloc_list.map (fun r => r.ptr)).Nodup ∧
    (__brealloc__ 64 8 "g" "c" scratch_state).value = some 96 ∧
    (__brealloc__ 64 8 "g" "c" scratch_state).state.alloc_list
      = [{ ptr := 96, reason := "g " }, { ptr := 96, reason := "f a" }] ∧
    (__brealloc__ 64 8 "g" "c" scratch_state).state.alloc_list.countP
      (fun r => r.ptr == 96) = 2 :=
  ⟨by decide, rfl, by decide, by decide⟩

/-- C9, as the code has it: on a ledger with one record per address, `__brealloc__` of a
non-null `old` removes the record of `old` and then puts the record of the returned `q` in
front. If `q` is `old` or has no record in the ledger, the ledger then holds exactly one
record for `q`, none for `old` unless `old = q`, all other records are unchanged and in
their previous order, and there is still one record per address. -/
theorem brealloc_ledger_update (old size q : Nat) (func reason : String) (s s' : State ρ)
    (hinv : (s.alloc_list.map (fun r => r.ptr)).Nodup) (hold : old ≠ 0)
    (h : __brealloc__ old size func reason s = .returns q s')
    (hq : q = old ∨ ∀ r ∈ s.alloc_list, r.ptr ≠ q) :
    s'.alloc_list = { ptr := q, reason := concatFuncReason func reason }
      :: removeFromList s.alloc_list old ∧
    removeFromList s.alloc_list old = s.alloc_list.filter (fun r => r.ptr != old) ∧
    s'.alloc_list.countP (fun r => r.ptr == q) = 1 ∧
    (q ≠ old → s'.alloc_list.countP (fun r => r.ptr == old) = 0) ∧
    (s'.alloc_list.map (fun r => r.ptr)).Nodup := by
  obtain ⟨-, -, -, -, hl, -⟩ := brealloc_returns h
  unfold brealloc_ledger at hl
  rw [if_neg hold] at hl
  have hfil := removeFromList_eq_filter s.alloc_list old hinv
  have hno : ∀ r ∈ removeFromList s.alloc_list old, r.ptr ≠ q := by
    intro r hr
    rw [hfil, List.mem_filter] at hr
    rcases hq with hq | hq
    · have := hr.2
      simp only [bne_iff_ne, ne_eq] at this
      rw [hq]
      exact this
    · exact hq r hr.1
  have hzero : (removeFromList s.alloc_list old).countP (fun r => r.ptr == q) = 0 := by
    rw [List.countP_eq_zero]
    intro r hr
    simpa using hno r hr
  refine ⟨hl, hfil, ?_, ?_, ?_⟩
  · rw [hl, List.countP_cons, hzero]
    simp
  · intro hne
    rw [hl, List.countP_cons, hfil, List.countP_eq_zero.mpr]
    · simp [hne]
    · intro r hr
      rw [List.mem_filter] at hr
      have := hr.2
      simp only [bne_iff_ne, ne_eq] at this
      simpa using this
  · rw [hl, List.map_cons, List.nodup_cons]
    constructor
    · intro hin
      obtain ⟨r, hr, hrq⟩ := List.mem_map.mp hin
      exact hno r hr hrq
    · rw [hfil]
      exact List.Nodup.sublist ((List.filter_sublist _).map _) hinv

/-- C9 on an explicit input: the block at 4128 moves to 4176; its record is replaced by a
record for 4176 in front, the records of 8000 and 9000 keep their order. -/
theorem brealloc_ledger_update_witness :
    __brealloc__ 4128 64 "g" "r" three_blocks
      = .returns 4176 (__brealloc__ 4128 64 "g" "r" three_blocks).state ∧
    (__brealloc__ 4128 64 "g" "r" three_blocks).state.alloc_list
      = [{ ptr := 4176, reason := "g " }, { ptr := 8000, reason := "f a" },
         { ptr := 9000, reason := "f b" }] ∧
    (__brealloc__ 4128 64 "g" "r" three_blocks).state.alloc_list.countP
      (fun r => r.ptr == 4176) = 1 :=
  ⟨rfl, by decide,
   (brealloc_ledger_update 4128 64 4176 "g" "r" three_blocks _ (by decide) (by decide) rfl
     (Or.inr (by decide))).2.2.1⟩

/-! ## C10 -/

/-- C10: `bmem_print_leaks` emits one `blog` line per record, with the record's address and
stored reason, in ledger order, and nothing else; it leaves the ledger empty and the
counter, the backend and the machine as they were; a record put in by `addToList` is the
first to be reported; a second call right after emits nothing. -/
theorem bmem_print_leaks_drains (s : State ρ) :
    (bmem_print_leaks s).trace
      = s.trace ++ s.alloc_list.map (fun r => Effect.blog leak_format r.ptr r.reason) ∧
    (bmem_print_leaks s).alloc_list = [] ∧
    bnum_allocs (bmem_print_leaks s) = bnum_allocs s ∧
    (bmem_print_leaks s).machine = s.machine ∧
    (∀ (ptr : Nat) (reason : String),
      (bmem_print_leaks { s with alloc_list := addToList s.alloc_list ptr (some reason) }).trace
        = s.trace ++ Effect.blog leak_format ptr reason
            :: s.alloc_list.map (fun r => Effect.blog leak_format r.ptr r.reason)) ∧
    (bmem_print_leaks (bmem_print_leaks s)).trace = (bmem_print_leaks s).trace := by
  simp [bmem_print_leaks, print_leaks_loop_eq, bnum_allocs, addToList]

/-! ## C11 -/

/-- C11: `removeFromList` erases the first record whose address is `a` and leaves all other
records as they were, in the same order; when no record has address `a` the ledger is
returned unchanged (the function is total: there is no error path). This is the ledger
update of `bfree` and of `__brealloc__` for a non-null pointer. -/
theorem removeFromList_erases_first (l : List s_alloc_list) (a : Nat) :
    removeFromList l a = l.eraseP (fun r => r.ptr == a) ∧
    (∀ (l1 l2 : List s_alloc_list) (r : s_alloc_list), l = l1 ++ r :: l2 →
      (∀ x ∈ l1, x.ptr ≠ a) → r.ptr = a → removeFromList l a = l1 ++ l2) ∧
    ((∀ r ∈ l, r.ptr ≠ a) → removeFromList l a = l) ∧
    (∀ s : State ρ, a ≠ 0 → s.alloc_list = l → (bfree a s).alloc_list = removeFromList l a) ∧
    (∀ (s s' : State ρ) (size q : Nat) (func reason : String), a ≠ 0 → s.alloc_list = l →
      __brealloc__ a size func reason s = .returns q s' →
      s'.alloc_list.tail = removeFromList l a) := by
  have herase : ∀ l' : List s_alloc_list,
      removeFromList l' a = l'.eraseP (fun r => r.ptr == a) := by
    intro l'
    induction l' with
    | nil => rfl
    | cons curr next ih =>
      unfold removeFromList
      rw [List.eraseP_cons]
      by_cases hc : curr.ptr = a
      · simp [hc]
      · have hb : (curr.ptr == a) = false := by simpa using hc
        simp [hc, ih, hb]
  refine ⟨herase l, ?_, ?_, ?_, ?_⟩
  · intro l1 l2 r hl h1 hr
    rw [herase, hl, List.eraseP_append_right]
    · rw [List.eraseP_cons]
      simp [hr]
    · intro b hb
      simpa using h1 b hb
  · intro h
    rw [herase]
    apply List.eraseP_of_forall_not
    intro r hr
    simpa using h r hr
  · intro s ha hl
    rw [← hl]
    simp [bfree, ha]
  · intro s s' size q func reason ha hl h
    obtain ⟨-, -, -, -, hlist, -⟩ := brealloc_returns h
    rw [hlist, ← hl]
    simp [brealloc_ledger, ha]

/-- C11 on an explicit input: of two records for 4128 the first is erased, the second and
the records of 8000 and 9000 stay in place. -/
theorem removeFromList_erases_first_witness :
    removeFromList [{ ptr := 8000, reason := "a" }, { ptr := 4128, reason := "x" },
        { ptr := 9000, reason := "b" }, { ptr := 4128, reason := "y" }] 4128
      = [{ ptr := 8000, reason := "a" }] ++
        [{ ptr := 9000, reason := "b" }, { ptr := 4128, reason := "y" }] :=
  (removeFromList_erases_first (ρ := BumpHeap) _ 4128).2.1 [{ ptr := 8000, reason := "a" }]
    [{ ptr := 9000, reason := "b" }, { ptr := 4128, reason := "y" }]
    { ptr := 4128, reason := "x" } rfl (by decide) rfl

/-! ## C12 -/

/-- One returning call of a matched run keeps the invariant. -/
theorem exec_matchInv (c : Call ρ) (s s1 : State ρ) (r : Option Nat) (live : List Nat)
    (hinv : MatchInv s live) (h : c.exec s = .returns r s1) (hm : c.matched live = true)
    (hf : c.fresh r live = true) : MatchInv s1 (c.live r live) := by
  obtain ⟨hmap, hnd, hnz, hcnt⟩ := hinv
  cases c with
  | bmalloc size func reason =>
    simp only [Call.exec] at h
    cases hb : __bmalloc__ size func reason s with
    | aborts t => rw [hb] at h; simp at h
    | returns p t =>
      rw [hb] at h
      simp only [Outcome.returns.injEq] at h
      obtain ⟨hr, ht⟩ := h
      subst hr ht
      obtain ⟨hp, -⟩ := bmalloc_returns hb
      obtain ⟨-, hn, hl, -⟩ := bmalloc_returns_state hb
      simp only [Call.fresh, Bool.not_eq_true', List.contains_eq_any_beq, List.any_eq_false,
        beq_iff_eq] at hf
      refine ⟨?_, ?_, ?_, ?_⟩
      · simp [Call.live, hl, hmap]
      · simp only [Call.live, List.nodup_cons]
        exact ⟨fun hin => hf p hin rfl, hnd⟩
      · intro a ha
        simp only [Call.live, List.mem_cons] at ha
        rcases ha with ha | ha
        · rw [ha]; exact hp
        · exact hnz a ha
      · simp [Call.live, hn, hcnt]
  | bfree ptr =>
    simp only [Call.exec, Outcome.returns.injEq] at h
    obtain ⟨-, ht⟩ := h
    subst ht
    simp only [Call.matched, List.contains_eq_any_beq, List.any_eq_true, beq_iff_eq] at hm
    obtain ⟨x, hx, hxp⟩ := hm
    have hm : ptr ∈ live := hxp ▸ hx
    have hp : ptr ≠ 0 := hnz ptr hm
    have hndl : (s.alloc_list.map (fun r => r.ptr)).Nodup := by rw [hmap]; exact hnd
    have hl : (bfree ptr s).alloc_list = s.alloc_list.filter (fun r => r.ptr != ptr) := by
      rw [← removeFromList_eq_filter _ _ hndl]
      simp [bfree, hp]
    have hlen : (live.filter (fun a => a != ptr)).length + 1 = live.length := by
      rw [← List.Nodup.erase_eq_filter hnd, List.length_erase_of_mem hm]
      have : 0 < live.length := List.length_pos_of_mem hm
      omega
    refine ⟨?_, ?_, ?_, ?_⟩
    · simp only [Call.live]
      rw [hl, ← hmap, List.filter_map]
      rfl
    · exact List.Nodup.filter _ hnd
    · intro a ha
      simp only [Call.live, List.mem_filter] at ha
      exact hnz a ha.1
    · have hn : (bfree ptr s).num_allocs = s.num_allocs - 1 := by
        simp [bfree, hp, os_atomic_dec_long]
      simp only [Call.live]
      rw [hn, hcnt, ← hlen]
      push_cast
      ring
  | brealloc ptr size func reason => simp [Call.matched] at hm
  | bmem_print_leaks => simp [Call.matched] at hm
  | base_set_allocator defs => simp [Call.matched] at hm

/-- A matched run returns and ends with an empty ledger and a counter of 0. -/
theorem matchedRun_ends_empty (calls : List (Call ρ)) (s : State ρ) (live : List Nat)
    (hinv : MatchInv s live) (hm : matchedRun calls s live = true) :
    ∃ s', run calls s = some s' ∧ s'.alloc_list = [] ∧ s'.num_allocs = 0 := by
  induction calls generalizing s live with
  | nil =>
    simp only [matchedRun, List.isEmpty_iff] at hm
    obtain ⟨hmap, -, -, hcnt⟩ := hinv
    subst hm
    exact ⟨s, rfl, List.map_eq_nil_iff.mp hmap, by simpa using hcnt⟩
  | cons c cs ih =>
    simp only [matchedRun] at hm
    cases hc : c.exec s with
    | aborts t => rw [hc] at hm; simp at hm
    | returns r t =>
      rw [hc] at hm
      simp only [Bool.and_eq_true] at hm
      obtain ⟨s', hrun, hres⟩ := ih t _ (exec_matchInv c s t r live hinv hc hm.1.1 hm.1.2) hm.2
      exact ⟨s', by simp only [run, hc]; exact hrun, hres⟩

/-- C12: starting from counter 0 and an empty ledger, with a backend that never answers
with a live address, every serial order of `bmalloc` and `bfree` calls in which each
returned block is freed exactly once after its allocation runs to its end and leaves
`bnum_allocs() = 0` and an empty ledger, so that `bmem_print_leaks` emits nothing.
Likewise `bfree` right after `__bmalloc__` puts the ledger back as it was, and the report
has no line for that address when it had no record before. -/
theorem matched_frees_leave_nothing (calls : List (Call ρ)) (s : State ρ)
    (h0 : s.num_allocs = 0) (hl : s.alloc_list = [])
    (hm : matchedRun calls s [] = true) :
    (∃ s', run calls s = some s' ∧ bnum_allocs s' = 0 ∧ s'.alloc_list = [] ∧
      (bmem_print_leaks s').trace = s'.trace) ∧
    (∀ (t t1 : State ρ) (size p : Nat) (func reason : String),
      __bmalloc__ size func reason t = .returns p t1 →
      (bfree p t1).alloc_list = t.alloc_list ∧
      (bmem_print_leaks (bfree p t1)).trace
        = t.trace ++ t.alloc_list.map (fun r => Effect.blog leak_format r.ptr r.reason) ∧
      ((∀ r ∈ t.alloc_list, r.ptr ≠ p) → ∀ text : String,
        Effect.blog leak_format p text
          ∉ t.alloc_list.map (fun r => Effect.blog leak_format r.ptr r.reason))) := by
  constructor
  · have hinv : MatchInv s [] := by
      refine ⟨by rw [hl]; rfl, List.nodup_nil, by simp, by simp [h0]⟩
    obtain ⟨s', hrun, hle, hn⟩ := matchedRun_ends_empty calls s [] hinv hm
    refine ⟨s', hrun, hn, hle, ?_⟩
    simp [bmem_print_leaks, print_leaks_loop_eq, hle]
  · intro t t1 size p func reason h
    obtain ⟨hp, -⟩ := bmalloc_returns h
    obtain ⟨-, -, hlist, -, htr⟩ := bmalloc_returns_state h
    have hfree : (bfree p t1).alloc_list = t.alloc_list := by
      simp [bfree, hp, hlist, removeFromList]
    refine ⟨hfree, ?_, ?_⟩
    · have htr2 : (bfree p t1).trace = t.trace := by
        rw [← htr]
        by_cases hp0 : p = 0 <;> simp [bfree, hp0]
      simp [bmem_print_leaks, print_leaks_loop_eq, hfree, htr2]
    · intro hno text hin
      obtain ⟨r, hr, heq⟩ := List.mem_map.mp hin
      simp only [Effect.blog.injEq, true_and] at heq
      exact hno r hr heq.1

/-- C12 on the scenario of the spec: four callers, ten blocks of 16 bytes each, in the
interleaving of `four_callers` on the bump platform. -/
theorem matched_frees_leave_nothing_witness :
    four_callers.length = 80 ∧
    ∃ s', run four_callers (initial bump (machineAt 4112)) = some s' ∧ bnum_allocs s' = 0 ∧
      s'.alloc_list = [] ∧ (bmem_print_leaks s').trace = s'.trace :=
  ⟨rfl, (matched_frees_leave_nothing four_callers (initial bump (machineAt 4112)) rfl rfl rfl).1⟩

/-! ## C13 -/

theorem bmemdup_eq (ptr size : Nat) (func reason : String) (s : State ρ) :
    __bmemdup__ ptr size func reason s =
      if (bmalloc_answer size s).1 = 0 then
        .aborts (oom_state size (bmalloc_answer size s).2 s)
      else
        .returns (bmalloc_answer size s).1
          { s with
            machine := if size ≠ 0 then
                memcpy (bmalloc_answer size s).1 ptr size (bmalloc_answer size s).2
              else (bmalloc_answer size s).2
            num_allocs := s.num_allocs + 1
            alloc_list := { ptr := (bmalloc_answer size s).1,
                            reason := concatFuncReason func reason } :: s.alloc_list } := by
  unfold __bmemdup__
  rw [bmalloc_eq]
  by_cases h : (bmalloc_answer size s).1 = 0
  · rw [if_pos h, if_pos h]
  · rw [if_neg h, if_neg h]
    by_cases hs : size = 0
    · subst hs
      simp
    · simp [hs]

/-- C13: when the backend answers the request, `__bmemdup__(src, n)` returns that non-null
block, and its first `n` bytes are the `n` bytes at `src` as the copy finds them; the copy
writes nowhere else, so a source apart from the block is unchanged, and if the allocation
itself left the source bytes alone they are the bytes from before the call. For `n = 0`
nothing is copied and `src` is not used at all: a null `src` gives the same outcome. -/
theorem bmemdup_copies (src n : Nat) (func reason : String) (s : State ρ)
    (hret : (bmalloc_answer n s).1 ≠ 0) :
    ∃ out s', __bmemdup__ src n func reason s = .returns out s' ∧ out ≠ 0 ∧
      out = (bmalloc_answer n s).1 ∧
      (∀ i, i < n → s'.machine.mem (out + i) = (bmalloc_answer n s).2.mem (src + i)) ∧
      (∀ a, (a < out ∨ out + n ≤ a) → s'.machine.mem a = (bmalloc_answer n s).2.mem a) ∧
      ((∀ i, i < n → (bmalloc_answer n s).2.mem (src + i) = s.machine.mem (src + i)) →
        (src + n ≤ out ∨ out + n ≤ src) →
        ∀ i, i < n → s'.machine.mem (out + i) = s.machine.mem (src + i) ∧
          s'.machine.mem (src + i) = s.machine.mem (src + i)) ∧
      (n = 0 → s'.machine = (bmalloc_answer n s).2 ∧
        __bmemdup__ 0 n func reason s = .returns out s') := by
  have hcopy : ∀ (m : Machine ρ) (out i : Nat), i < n →
      (memcpy out src n m).mem (out + i) = m.mem (src + i) := by
    intro m out i hi
    have h3 : out + i - out + src = src + i := by omega
    have hc : out ≤ out + i ∧ out + i < out + n := by omega
    simp only [memcpy, hc, and_self, if_true, h3]
  have hrest : ∀ (m : Machine ρ) (out a : Nat), (a < out ∨ out + n ≤ a) →
      (memcpy out src n m).mem a = m.mem a := by
    intro m out a ha
    have : ¬(out ≤ a ∧ a < out + n) := by omega
    simp [memcpy, this]
  have heq := bmemdup_eq src n func reason s
  rw [if_neg hret] at heq
  refine ⟨_, _, heq, hret, rfl, ?_, ?_, ?_, ?_⟩
  · intro i hi
    have hn : n ≠ 0 := by omega
    simp only [hn, ne_eq, not_false_eq_true, if_true]
    exact hcopy _ _ i hi
  · intro a ha
    by_cases hn : n = 0
    · simp [hn]
    · simp only [hn, ne_eq, not_false_eq_true, if_true]
      exact hrest _ _ a ha
  · intro hkeep hapart i hi
    have hn : n ≠ 0 := by omega
    simp only [hn, ne_eq, not_false_eq_true, if_true]
    constructor
    · rw [hcopy _ _ i hi, hkeep i hi]
    · rw [hrest _ _ (src + i) (by omega), hkeep i hi]
  · intro hn
    subst hn
    refine ⟨by simp, ?_⟩
    rw [bmemdup_eq, if_neg hret]
    simp

/-- C13 on an explicit input: the two bytes 104, 105 at 4000 are duplicated into the
block at 4128. -/
theorem bmemdup_copies_witness :
    ∃ out s', __bmemdup__ 4000 2 "f" "r" source_state = .returns out s' ∧ out = 4128 ∧
      s'.machine.mem (4128 + 0) = 104 ∧ s'.machine.mem (4128 + 1) = 105 ∧
      s'.machine.mem (4000 + 0) = 104 ∧ s'.machine.mem (4000 + 1) = 105 := by
  obtain ⟨out, s', h, -, hout, hc, -, -, -⟩ :=
    bmemdup_copies 4000 2 "f" "r" source_state (by decide)
  have h4 : out = 4128 := hout.trans (by decide)
  subst h4
  exact ⟨4128, s', h, rfl, (hc 0 (by decide)).trans rfl, (hc 1 (by decide)).trans rfl,
    by
      have hh : __bmemdup__ 4000 2 "f" "r" source_state
          = .returns 4128 (__bmemdup__ 4000 2 "f" "r" source_state).state := rfl
      rw [hh] at h
      simp only [Outcome.returns.injEq, true_and] at h
      subst h
      exact ⟨rfl, rfl⟩⟩

/-! ## C14 -/

/-- The search of `strlen` stops at the terminator when the fuel reaches it. -/
theorem strlen_from_eq (m : Machine ρ) (str len : Nat)
    (hnz : ∀ i, i < len → m.mem (str + i) % 256 ≠ 0) (hz : m.mem (str + len) % 256 = 0)
    (fuel i : Nat) (hi : i ≤ len) (hfuel : len - i < fuel) :
    strlen_from m str fuel i = len := by
  induction fuel generalizing i with
  | zero => omega
  | succ fuel ih =>
    unfold strlen_from
    by_cases hb : m.mem (str + i) % 256 = 0
    · rw [if_pos hb]
      by_contra hne
      exact hnz i (by omega) hb
    · rw [if_neg hb]
      have hil : i ≠ len := fun h => hb (h ▸ hz)
      exact ih (i + 1) (by omega) (by omega)

theorem strlen_eq (m : Machine ρ) (str len : Nat)
    (hnz : ∀ i, i < len → m.mem (str + i) % 256 ≠ 0) (hz : m.mem (str + len) % 256 = 0)
    (hlen : len < SIZE_MOD) : strlen m str = len :=
  strlen_from_eq m str len hnz hz SIZE_MOD 0 (Nat.zero_le _) (by omega)

/-- The value of `__bmemdup__` is never the null pointer. -/
theorem bmemdup_value_ne_zero (ptr size : Nat) (func reason : String) (s : State ρ) :
    (__bmemdup__ ptr size func reason s).value ≠ some 0 := by
  rw [bmemdup_eq]
  by_cases h : (bmalloc_answer size s).1 = 0
  · simp [h, Outcome.value]
  · simp [h, Outcome.value]

theorem bstrdup_n_eq (str n : Nat) (func reason : String) (s : State ρ) (hstr : str ≠ 0)
    (hn : n < SIZE_MOD - 1) :
    __bstrdup_n__ str n func reason s =
      if (bmalloc_answer (n + 1) s).1 = 0 then
        .aborts (oom_state (n + 1) (bmalloc_answer (n + 1) s).2 s)
      else
        .returns (bmalloc_answer (n + 1) s).1
          { s with
            machine := storeByte
              (memcpy (bmalloc_answer (n + 1) s).1 str (n + 1) (bmalloc_answer (n + 1) s).2)
              ((bmalloc_answer (n + 1) s).1 + n) 0
            num_allocs := s.num_allocs + 1
            alloc_list := { ptr := (bmalloc_answer (n + 1) s).1,
                            reason := concatFuncReason func reason } :: s.alloc_list } := by
  unfold __bstrdup_n__
  have hmod : (n + 1) % SIZE_MOD = n + 1 := Nat.mod_eq_of_lt (by omega)
  rw [if_neg hstr, hmod, bmemdup_eq]
  by_cases h : (bmalloc_answer (n + 1) s).1 = 0
  · rw [if_pos h, if_pos h]
  · rw [if_neg h, if_neg h]
    simp

/-- What `__bstrdup_n__` leaves in the block: the bytes the copy found at `str`, then 0. -/
theorem bstrdup_n_bytes (str n : Nat) (func reason : String) (s : State ρ) (hstr : str ≠ 0)
    (hn : n < SIZE_MOD - 1) (hret : (bmalloc_answer (n + 1) s).1 ≠ 0) :
    ∃ dup s', __bstrdup_n__ str n func reason s = .returns dup s' ∧ dup ≠ 0 ∧
      dup = (bmalloc_answer (n + 1) s).1 ∧
      (∀ i, i < n → s'.machine.mem (dup + i) = (bmalloc_answer (n + 1) s).2.mem (str + i)) ∧
      s'.machine.mem (dup + n) = 0 := by
  have heq := bstrdup_n_eq str n func reason s hstr hn
  rw [if_neg hret] at heq
  refine ⟨_, _, heq, hret, rfl, ?_, ?_⟩
  · intro i hi
    have h1 : (bmalloc_answer (n + 1) s).1 + i ≠ (bmalloc_answer (n + 1) s).1 + n := by omega
    have h3 : (bmalloc_answer (n + 1) s).1 + i - (bmalloc_answer (n + 1) s).1 + str
        = str + i := by omega
    have hc : (bmalloc_answer (n + 1) s).1 ≤ (bmalloc_answer (n + 1) s).1 + i ∧
        (bmalloc_answer (n + 1) s).1 + i < (bmalloc_answer (n + 1) s).1 + (n + 1) := by omega
    simp only [storeByte, memcpy, h1, if_false, hc, and_self, if_true, h3]
  · simp [storeByte]

/-- C14: `__bstrdup_n__` returns null exactly when `str` is null, and then returns at once
with the state (counter, ledger, backend) untouched. For a non-null `str` and
`n < SIZE_MAX`, when the backend answers the request of `n + 1` bytes, the block returned
holds the `n` bytes found at `str` followed by a zero byte. `__bstrdup__(str)` is
`__bstrdup_n__(str, strlen(str))`, so for a string of `len` bytes that the allocation
leaves alone it returns a block holding the same `len` bytes and the terminating zero. -/
theorem bstrdup_n_copies (str n : Nat) (func reason : String) (s : State ρ) :
    ((__bstrdup_n__ str n func reason s).value = some 0 ↔ str = 0) ∧
    (str = 0 → __bstrdup_n__ str n func reason s = .returns 0 s ∧
      __bstrdup__ str func reason s = .returns 0 s) ∧
    (str ≠ 0 → n < SIZE_MOD - 1 → (bmalloc_answer (n + 1) s).1 ≠ 0 →
      ∃ dup s', __bstrdup_n__ str n func reason s = .returns dup s' ∧ dup ≠ 0 ∧
        dup = (bmalloc_answer (n + 1) s).1 ∧
        (∀ i, i < n → s'.machine.mem (dup + i) = (bmalloc_answer (n + 1) s).2.mem (str + i)) ∧
        s'.machine.mem (dup + n) = 0) ∧
    __bstrdup__ str func reason s
      = __bstrdup_n__ str (strlen s.machine str) func reason s ∧
    (∀ len, str ≠ 0 → len < SIZE_MOD - 1 →
      (∀ i, i < len → s.machine.mem (str + i) % 256 ≠ 0) →
      s.machine.mem (str + len) % 256 = 0 →
      (bmalloc_answer (len + 1) s).1 ≠ 0 →
      (∀ i, i < len → (bmalloc_answer (len + 1) s).2.mem (str + i) = s.machine.mem (str + i)) →
      ∃ dup s', __bstrdup__ str func reason s = .returns dup s' ∧ dup ≠ 0 ∧
        (∀ i, i < len → s'.machine.mem (dup + i) = s.machine.mem (str + i)) ∧
        s'.machine.mem (dup + len) = 0 ∧ strlen s'.machine dup = len) := by
  refine ⟨?_, ?_, ?_, ?_, ?_⟩
  · constructor
    · intro h
      by_contra hstr
      unfold __bstrdup_n__ at h
      rw [if_neg hstr] at h
      have hv := bmemdup_value_ne_zero str ((n + 1) % SIZE_MOD) func reason s
      cases hm : __bmemdup__ str ((n + 1) % SIZE_MOD) func reason s with
      | aborts t => rw [hm] at h; simp [Outcome.value] at h
      | returns dup t =>
        rw [hm] at h hv
        simp only [Outcome.value, Option.some.injEq] at h
        exact hv (by rw [h]; rfl)
    · intro hstr
      simp [__bstrdup_n__, hstr, Outcome.value]
  · intro hstr
    simp [__bstrdup_n__, __bstrdup__, hstr]
  · intro hstr hn hret
    exact bstrdup_n_bytes str n func reason s hstr hn hret
  · unfold __bstrdup__
    by_cases hstr : str = 0
    · simp [hstr, __bstrdup_n__]
    · rw [if_neg hstr]
  · intro len hstr hlen hnz hz hret hkeep
    have hsl : strlen s.machine str = len := strlen_eq _ _ _ hnz hz (by omega)
    obtain ⟨dup, s', heq, hdup, -, hbytes, hzero⟩ :=
      bstrdup_n_bytes str len func reason s hstr hlen hret
    have hcopy : ∀ i, i < len → s'.machine.mem (dup + i) = s.machine.mem (str + i) :=
      fun i hi => (hbytes i hi).trans (hkeep i hi)
    refine ⟨dup, s', ?_, hdup, hcopy, hzero, ?_⟩
    · unfold __bstrdup__
      rw [if_neg hstr, hsl]
      exact heq
    · apply strlen_eq _ _ _ _ _ (by omega)
      · intro i hi
        rw [hcopy i hi]
        exact hnz i hi
      · rw [hzero]

/-- C14 on an explicit input: the string of the two bytes 104, 105 at 4000 is duplicated
by `__bstrdup__` into a block holding 104, 105, 0. -/
theorem bstrdup_n_copies_witness :
    ∃ dup s', __bstrdup__ 4000 "f" "r" source_state = .returns dup s' ∧ dup ≠ 0 ∧
      (∀ i, i < 2 → s'.machine.mem (dup + i) = source_state.machine.mem (4000 + i)) ∧
      s'.machine.mem (dup + 2) = 0 ∧ strlen s'.machine dup = 2 :=
  (bstrdup_n_copies 4000 0 "f" "r" source_state).2.2.2.2 2 (by decide) (by decide)
    (fun i hi => by interval_cases i <;> decide) (by decide) (by decide)
    (fun i hi => by interval_cases i <;> rfl)

/-! ## C15 -/

/-- C15 fails for a backend whose `free` does something with a null pointer: `bfree(NULL)`
calls `alloc.free(NULL)`, and the backend `noting` records the call. -/
theorem bfree_null_calls_backend :
    noting_state.machine.heap.blocks = [] ∧
    (bfree 0 noting_state).machine.heap.blocks = [(0, 0)] ∧
    (bfree 0 noting_state).machine = noting.free 0 noting_state.machine :=
  ⟨rfl, rfl, rfl⟩

/-- C15, as the code has it: for every installed backend `bfree(NULL)` leaves the counter,
the ledger, the backend and the trace as they were, and does one thing: it calls the
backend's `free` with the null pointer. With the default backend that call does nothing,
the platform `free` is not reached, and `bfree(NULL)` is a no-op. -/
theorem bfree_null (s : State ρ) :
    (bfree 0 s).num_allocs = s.num_allocs ∧ (bfree 0 s).alloc_list = s.alloc_list ∧
    (bfree 0 s).alloc = s.alloc ∧ (bfree 0 s).trace = s.trace ∧
    (bfree 0 s).machine = s.alloc.free 0 s.machine ∧
    (∀ (libc : base_allocator ρ) (m : Machine ρ), a_free libc 0 m = m) ∧
    (∀ libc : base_allocator ρ, s.alloc = default_alloc libc → bfree 0 s = s) := by
  refine ⟨by simp [bfree], by simp [bfree], by simp [bfree], by simp [bfree],
    by simp [bfree], ?_, ?_⟩
  · intro libc m
    simp [a_free]
  · intro libc hs
    obtain ⟨alloc, n, l, m, t⟩ := s
    simp only at hs
    subst hs
    simp [bfree, default_alloc, a_free]

/-! ## C16 -/

/-- With the default backend `__brealloc__` of a null pointer gets the same final answer
from the backend as `__bmalloc__`. -/
theorem brealloc_answer_null (libc : base_allocator ρ) (size : Nat) (s : State ρ)
    (hs : s.alloc = default_alloc libc) :
    brealloc_answer 0 size s = bmalloc_answer size s := by
  unfold brealloc_answer bmalloc_answer
  rw [hs]
  simp [default_alloc, a_realloc]

/-- C16 fails on the fatal path: on an exhausted platform both calls abort, `__bmalloc__`
with the counter still at 0 and `__brealloc__(NULL, ...)` with the counter at 1, because
`__brealloc__` counts the allocation before it asks the backend. -/
theorem brealloc_null_counts_before_abort :
    (__bmalloc__ 16 "f" "r" (initial exhausted (machineAt 4112))).value = none ∧
    (__brealloc__ 0 16 "f" "r" (initial exhausted (machineAt 4112))).value = none ∧
    bnum_allocs (__bmalloc__ 16 "f" "r" (initial exhausted (machineAt 4112))).state = 0 ∧
    bnum_allocs (__brealloc__ 0 16 "f" "r" (initial exhausted (machineAt 4112))).state = 1 ∧
    (__brealloc__ 0 16 "f" "r" (initial exhausted (machineAt 4112))).state.trace
      = (__bmalloc__ 16 "f" "r" (initial exhausted (machineAt 4112))).state.trace :=
  ⟨rfl, rfl, rfl, rfl, rfl⟩

/-- C16, as the code has it: with the default backend `a_realloc(NULL, n)` is
`a_malloc(n)`, and `__brealloc__(NULL, size, f, r)` has the same fatal or non-fatal outcome
as `__bmalloc__(size, f, r)`. When they return, they return the same pointer in the same
state (counter, ledger, machine). When they abort, they do so after the same breakpoint and
crash report, and the states differ in the counter alone: `__brealloc__` has already
counted the allocation, `__bmalloc__` has not. -/
theorem brealloc_null_is_bmalloc (libc : base_allocator ρ) (size : Nat)
    (func reason : String) (s : State ρ) (hs : s.alloc = default_alloc libc) :
    (∀ (n : Nat) (m : Machine ρ), a_realloc libc 0 n m = a_malloc libc n m) ∧
    (__brealloc__ 0 size func reason s).value = (__bmalloc__ size func reason s).value ∧
    (∀ p s', __bmalloc__ size func reason s = .returns p s' →
      __brealloc__ 0 size func reason s = .returns p s') ∧
    (∀ s', __bmalloc__ size func reason s = .aborts s' →
      __brealloc__ 0 size func reason s
        = .aborts { s' with num_allocs := s'.num_allocs + 1 }) := by
  have ha := brealloc_answer_null libc size s hs
  refine ⟨fun n m => by simp [a_realloc], ?_, ?_, ?_⟩
  · rw [brealloc_eq, bmalloc_eq, ha]
    by_cases h : (bmalloc_answer size s).1 = 0 <;> simp [h, Outcome.value]
  · intro p s' h
    rw [bmalloc_eq] at h
    rw [brealloc_eq, ha]
    by_cases h0 : (bmalloc_answer size s).1 = 0
    · simp [h0] at h
    · simp only [h0, if_false, Outcome.returns.injEq] at h ⊢
      refine ⟨h.1, ?_⟩
      rw [← h.2]
      simp [brealloc_count, brealloc_ledger]
  · intro s' h
    rw [bmalloc_eq] at h
    rw [brealloc_eq, ha]
    by_cases h0 : (bmalloc_answer size s).1 = 0
    · simp only [h0, if_true, Outcome.aborts.injEq] at h ⊢
      rw [← h]
      simp [oom_state, brealloc_count, brealloc_ledger]
    · simp [h0] at h

/-- C16 on an explicit input: both calls return 4128 on the bump platform at 4112, in the
same state. -/
theorem brealloc_null_is_bmalloc_witness :
    __brealloc__ 0 16 "f" "r" (initial bump (machineAt 4112))
      = .returns 4128 (__bmalloc__ 16 "f" "r" (initial bump (machineAt 4112))).state :=
  (brealloc_null_is_bmalloc bump 16 "f" "r" (initial bump (machineAt 4112)) rfl).2.2.1
    4128 _ rfl

/-! ## C17 -/

/-- C17 fails for a backend that does not align: with the functions of the bump platform
installed as the backend, `__bmalloc__(16)` returns the backend's answer 4112, which is not
a multiple of `base_get_alignment() = 32`. -/
theorem bmalloc_custom_backend_unaligned :
    (__bmalloc__ 16 "f" "r" passthrough_state).value = some 4112 ∧
    base_get_alignment = 32 ∧ ¬ base_get_alignment ∣ ((4112 : Nat) : Int) :=
  ⟨rfl, rfl, by decide⟩

/-- C17, as the code has it: after `base_set_allocator(defs)`, `__bmalloc__` returns the
answer of `defs.malloc` unchanged (to the request, or to the retried one-byte request),
whatever the size; it is a multiple of `base_get_alignment() = 32` when the answers of
`defs.malloc` are, as those of the default backend are. -/
theorem bmalloc_alignment_of_backend (defs : base_allocator ρ) (size p : Nat)
    (func reason : String) (s s' : State ρ)
    (h : __bmalloc__ size func reason (base_set_allocator defs s) = .returns p s') :
    (p = (defs.malloc size s.machine).1 ∨
      (size = 0 ∧ p = (defs.malloc 1 (defs.malloc size s.machine).2).1)) ∧
    ((∀ (n : Nat) (m : Machine ρ), base_get_alignment ∣ ((defs.malloc n m).1 : Int)) →
      base_get_alignment ∣ (p : Int)) ∧
    (∀ (libc : base_allocator ρ) (n : Nat) (m : Machine ρ),
      base_get_alignment ∣ (((default_alloc libc).malloc n m).1 : Int)) := by
  obtain ⟨-, hp⟩ := bmalloc_returns h
  have hor : p = (defs.malloc size s.machine).1 ∨
      (size = 0 ∧ p = (defs.malloc 1 (defs.malloc size s.machine).2).1) := by
    rw [hp]
    unfold bmalloc_answer
    by_cases h0 : (defs.malloc size s.machine).1 = 0 ∧ size = 0
    · right
      refine ⟨h0.2, ?_⟩
      simp only [base_set_allocator]
      rw [if_pos h0]
    · left
      simp only [base_set_allocator]
      rw [if_neg h0]
  refine ⟨hor, ?_, ?_⟩
  · intro haligned
    rcases hor with h1 | ⟨-, h1⟩ <;> rw [h1] <;> exact haligned _ _
  · intro libc n m
    have hal : base_get_alignment = ((32 : Nat) : Int) := rfl
    rw [hal, Int.natCast_dvd_natCast]
    exact a_malloc_dvd libc n m

/-- C17 on an explicit input: the default strategy installed again through
`base_set_allocator`; `__bmalloc__(16)` returns 4128. -/
theorem bmalloc_alignment_of_backend_witness :
    ∃ s', __bmalloc__ 16 "f" "r" (base_set_allocator (default_alloc bump) passthrough_state)
        = .returns 4128 s' ∧
      base_get_alignment ∣ ((4128 : Nat) : Int) :=
  ⟨_, rfl,
   (bmalloc_alignment_of_backend (default_alloc bump) 16 4128 "f" "r" passthrough_state _
     rfl).2.1 (fun n m => Int.natCast_dvd_natCast.mpr (a_malloc_dvd bump n m))⟩

/-! ## C19 -/

/-- What `a_free` hands to the platform when the header byte of a non-null pointer holds
`d`: the address `ptr - d`. -/
theorem a_free_spec (libc : base_allocator ρ) (ptr d : Nat) (m : Machine ρ) (hp : ptr ≠ 0)
    (hd : loadChar m (ptr - 1) = d) (hle : d ≤ ptr) :
    a_free libc ptr m = libc.free (ptr - d) m := by
  unfold a_free
  have h1 : ptrAdd ptr (-(d : Int)) = ptr - d := by unfold ptrAdd; omega
  simp only [hp, ne_eq, not_false_eq_true, if_true, hd, h1]

/-- Along the life of an allocation the header byte holds the distance to the raw block,
which is between 1 and 32 and no more than the size of the raw block. -/
theorem headerChain_inv (libc : base_allocator ρ) (q r n : Nat) (m : Machine ρ)
    (h : HeaderChain libc q r n m) :
    r ≠ 0 ∧ 1 ≤ q - r ∧ q - r ≤ 32 ∧ r + (q - r) = q ∧ q - r ≤ n ∧
      loadChar m (q - 1) = ((q - r : Nat) : Int) := by
  induction h with
  | alloc size r m m1 hsize hm hr =>
    rw [a_malloc_spec libc size m m1 r hm hr]
    have hd : r + (32 - r % 32) - r = 32 - r % 32 := by omega
    have hA : ALIGNMENT = 32 := rfl
    dsimp only
    rw [hd, hA]
    refine ⟨hr, by omega, by omega, by omega, by omega, ?_⟩
    exact loadChar_storeByte _ _ _ (by omega)
  | touch q r n m m' _ hbyte ih =>
    obtain ⟨h1, h2, h3, h4, h5, h6⟩ := ih
    exact ⟨h1, h2, h3, h4, h5, by rw [loadChar_congr _ _ _ hbyte, h6]⟩
  | realloc q r n size r' m m' _ hsize hre hr' hkeep ih =>
    obtain ⟨h1, h2, h3, h4, h5, h6⟩ := ih
    have hA : ALIGNMENT = 32 := rfl
    have hS : SIZE_MOD = 18446744073709551616 := by decide
    rw [hA, hS] at hsize
    have hmod : (size + (q - r)) % SIZE_MOD = size + (q - r) :=
      Nat.mod_eq_of_lt (by rw [hS]; omega)
    have hqr : q - (q - r) = r := by omega
    have hspec := a_realloc_spec libc q size (q - r) m m' r' (by omega) h6 (by omega)
      (by rw [hqr, hmod]; exact hre)
    rw [hspec, if_pos hr']
    have hd : r' + (q - r) - r' = q - r := by omega
    dsimp only
    rw [hd]
    refine ⟨hr', h2, h3, by omega, by omega, ?_⟩
    have hb : m'.mem (r' + (q - r) - 1) = m.mem (q - 1) := by
      have := hkeep (q - r - 1) (lt_min (by omega) (by omega))
      have e1 : r' + (q - r) - 1 = r' + (q - r - 1) := by omega
      have e2 : q - 1 = r + (q - r - 1) := by omega
      rw [e1, e2]
      exact this
    rw [← h6]
    unfold loadChar
    rw [hb]

/-- C19 fails for a size above `SIZE_MAX - 32`: the block at 4128 (raw block 4112 of 36
bytes, offset 16) is resized to `SIZE_MAX` bytes; `a_realloc` asks the platform for
`(SIZE_MAX + 16) mod 2^64 = 15` bytes, the platform moves the raw block to 4160 and keeps
its first 15 bytes, and `a_realloc` returns 4176. The byte at 4175 is not 16, and the
address `a_free` would hand to the platform `free` is 4176, not 4160. -/
theorem header_lost_on_overflow :
    (a_malloc bump 4 (machineAt 4112)).1 = 4128 ∧
    (bump.realloc 4112 15 (a_malloc bump 4 (machineAt 4112)).2).1 = 4160 ∧
    (∀ i, i < min 36 15 →
      (bump.realloc 4112 15 (a_malloc bump 4 (machineAt 4112)).2).2.mem (4160 + i)
        = (a_malloc bump 4 (machineAt 4112)).2.mem (4112 + i)) ∧
    (a_realloc bump 4128 18446744073709551615 (a_malloc bump 4 (machineAt 4112)).2).1
      = 4176 ∧
    loadChar (a_realloc bump 4128 18446744073709551615 (a_malloc bump 4 (machineAt 4112)).2).2
      (4176 - 1) = 0 ∧
    ptrAdd 4176 (-(loadChar
      (a_realloc bump 4128 18446744073709551615 (a_malloc bump 4 (machineAt 4112)).2).2
      (4176 - 1))) = 4176 := by
  refine ⟨by decide, rfl, ?_, by decide, by decide, by decide⟩
  intro i hi
  exact bump_realloc_preserves 4112 15 (a_malloc bump 4 (machineAt 4112)).2
    (bump.realloc 4112 15 (a_malloc bump 4 (machineAt 4112)).2).2 4160 (by decide) rfl i hi

/-- C19, as the code has it. For every non-null raw address `r` the platform `malloc`
answers, `p = a_malloc(n)` is `r + d` with `d = 32 - r mod 32`, `a_free(p)` hands exactly
`r` to the platform `free`, and `a_realloc(p, size)` hands exactly `r` and `size + d`
(as a `size_t`) to the platform `realloc`. For sizes up to `SIZE_MAX - 32` and a platform
`realloc` that keeps the first `min(old, new)` bytes, this goes on along every chain of
reallocations: the byte before the current pointer `q` holds `q - r'` for the current raw
block `r'`, which is what `a_free` and `a_realloc` hand to the platform. -/
theorem header_recovers_raw (libc : base_allocator ρ) :
    (∀ (n r : Nat) (m m1 : Machine ρ),
      libc.malloc ((n + ALIGNMENT) % SIZE_MOD) m = (r, m1) → r ≠ 0 →
      (a_malloc libc n m).1 = r + (32 - r % 32) ∧
      a_free libc (a_malloc libc n m).1 (a_malloc libc n m).2
        = libc.free r (a_malloc libc n m).2 ∧
      ∀ size : Nat, a_realloc libc (a_malloc libc n m).1 size (a_malloc libc n m).2 =
        (if (libc.realloc r ((size + (32 - r % 32)) % SIZE_MOD) (a_malloc libc n m).2).1 ≠ 0
          then (libc.realloc r ((size + (32 - r % 32)) % SIZE_MOD) (a_malloc libc n m).2).1
            + (32 - r % 32)
          else 0,
         (libc.realloc r ((size + (32 - r % 32)) % SIZE_MOD) (a_malloc libc n m).2).2)) ∧
    (∀ (q r n : Nat) (m : Machine ρ), HeaderChain libc q r n m →
      loadChar m (q - 1) = ((q - r : Nat) : Int) ∧ 1 ≤ q - r ∧ q - r ≤ 32 ∧
      a_free libc q m = libc.free r m ∧
      ∀ size : Nat, a_realloc libc q size m =
        (if (libc.realloc r ((size + (q - r)) % SIZE_MOD) m).1 ≠ 0
          then (libc.realloc r ((size + (q - r)) % SIZE_MOD) m).1 + (q - r)
          else 0,
         (libc.realloc r ((size + (q - r)) % SIZE_MOD) m).2)) := by
  have key : ∀ (q d : Nat) (m : Machine ρ), q ≠ 0 → d ≤ q → loadChar m (q - 1) = d →
      a_free libc q m = libc.free (q - d) m ∧
      ∀ size : Nat, a_realloc libc q size m =
        (if (libc.realloc (q - d) ((size + d) % SIZE_MOD) m).1 ≠ 0
          then (libc.realloc (q - d) ((size + d) % SIZE_MOD) m).1 + d
          else 0,
         (libc.realloc (q - d) ((size + d) % SIZE_MOD) m).2) := by
    intro q d m hq hle hd
    refine ⟨a_free_spec libc q d m hq hd hle, ?_⟩
    intro size
    exact a_realloc_spec libc q size d m _ _ hq hd hle rfl
  constructor
  · intro n r m m1 hm hr
    rw [a_malloc_spec libc n m m1 r hm hr]
    have hk := key (r + (32 - r % 32)) (32 - r % 32)
      (storeByte m1 (r + (32 - r % 32) - 1) ((32 - r % 32 : Nat) : Int)) (by omega) (by omega)
      (loadChar_storeByte _ _ _ (by omega))
    have hd : r + (32 - r % 32) - (32 - r % 32) = r := by omega
    rw [hd] at hk
    exact ⟨rfl, hk.1, hk.2⟩
  · intro q r n m h
    obtain ⟨h1, h2, h3, h4, -, h6⟩ := headerChain_inv libc q r n m h
    have hk := key q (q - r) m (by omega) (by omega) h6
    have hd : q - (q - r) = r := by omega
    rw [hd] at hk
    exact ⟨h6, h2, h3, hk.1, hk.2⟩

/-- C19 on an explicit input: the block of 4 bytes at 4128 is filled and resized to 64
bytes; the platform moves the raw block from 4112 to 4160, the pointer becomes 4176, the
byte at 4175 holds 16 and `a_free` hands 4160 to the platform. -/
theorem header_recovers_raw_witness :
    (a_realloc bump 4128 64 filled_block.machine).1 = 4176 ∧
    loadChar (a_realloc bump 4128 64 filled_block.machine).2 (4176 - 1)
      = ((4176 - 4160 : Nat) : Int) ∧
    a_free bump 4176 (a_realloc bump 4128 64 filled_block.machine).2
      = bump.free 4160 (a_realloc bump 4128 64 filled_block.machine).2 := by
  have hchain : HeaderChain bump 4176 4160 (64 + (4128 - 4112))
      (a_realloc bump 4128 64 filled_block.machine).2 :=
    HeaderChain.realloc 4128 4112 (4 + ALIGNMENT) 64 4160 filled_block.machine
      (bump.realloc 4112 (64 + (4128 - 4112)) filled_block.machine).2
      (HeaderChain.touch 4128 4112 (4 + ALIGNMENT) (a_malloc bump 4 (machineAt 4112)).2
        filled_block.machine
        (HeaderChain.alloc 4 4112 (machineAt 4112)
          (bump.malloc ((4 + ALIGNMENT) % SIZE_MOD) (machineAt 4112)).2 (by decide) rfl
          (by decide))
        rfl)
      (by decide) rfl (by decide)
      (fun i hi => bump_realloc_preserves 4112 _ filled_block.machine _ 4160 (by decide) rfl
        i hi)
  have h := (header_recovers_raw bump).2 4176 4160 _ _ hchain
  exact ⟨by decide, h.1, h.2.2.2.1⟩

/-! ## C20 -/

/-- C20: for every raw address `r` the offset `d = ((~r) & 31) + 1` of `a_malloc` is between
1 and 32, is the least positive integer with `r + d` divisible by 32, and reads back
unchanged from one byte, whether `char` is signed or unsigned. For every size up to
`SIZE_MAX - 32` the header byte at `p - 1` and the caller's region `[p, p + size)`,
`p = r + d`, lie inside the raw block `[r, r + size + 32)` that `a_malloc` requested; after
`a_realloc` of a pointer whose header byte holds `d` they lie inside the new raw block
`[r', r' + size + d)`. -/
theorem alignDiff_fits (r size : Nat) :
    1 ≤ alignDiff r ∧ alignDiff r ≤ 32 ∧ (32 : Int) ∣ (r : Int) + alignDiff r ∧
    (∀ k : Int, 1 ≤ k → (32 : Int) ∣ (r : Int) + k → alignDiff r ≤ k) ∧
    (∀ (m : Machine ρ) (addr : Nat),
      loadChar (storeByte m addr (alignDiff r)) addr = alignDiff r ∧
      loadUChar (storeByte m addr (alignDiff r)) addr = alignDiff r) ∧
    (size ≤ SIZE_MOD - 1 - ALIGNMENT →
      ∀ (libc : base_allocator ρ) (m : Machine ρ),
        (libc.malloc ((size + ALIGNMENT) % SIZE_MOD) m).1 = r → r ≠ 0 →
        (size + ALIGNMENT) % SIZE_MOD = size + 32 ∧
        ((a_malloc libc size m).1 : Int) = (r : Int) + alignDiff r ∧
        r ≤ (a_malloc libc size m).1 - 1 ∧ (a_malloc libc size m).1 - 1 < r + (size + 32) ∧
        r ≤ (a_malloc libc size m).1 ∧ (a_malloc libc size m).1 + size ≤ r + (size + 32)) ∧
    (size ≤ SIZE_MOD - 1 - ALIGNMENT →
      ∀ (libc : base_allocator ρ) (m : Machine ρ) (q d r' : Nat), q ≠ 0 →
        loadChar m (q - 1) = d → 1 ≤ d → d ≤ 32 → d ≤ q →
        (libc.realloc (q - d) ((size + d) % SIZE_MOD) m).1 = r' → r' ≠ 0 →
        (size + d) % SIZE_MOD = size + d ∧
        (a_realloc libc q size m).1 = r' + d ∧
        r' ≤ (a_realloc libc q size m).1 - 1 ∧
        (a_realloc libc q size m).1 - 1 < r' + (size + d) ∧
        r' ≤ (a_realloc libc q size m).1 ∧
        (a_realloc libc q size m).1 + size ≤ r' + (size + d)) := by
  have hA : ALIGNMENT = 32 := rfl
  have hS : SIZE_MOD = 18446744073709551616 := by decide
  have hd := alignDiff_nat r
  have hlt : 32 - r % 32 < 128 := by omega
  refine ⟨by rw [hd]; omega, by rw [hd]; omega, by rw [hd]; omega, ?_, ?_, ?_, ?_⟩
  · intro k hk hdvd
    rw [hd]
    omega
  · intro m addr
    rw [hd]
    refine ⟨loadChar_storeByte m addr _ hlt, ?_⟩
    unfold loadUChar storeByte
    simp only [if_true]
    have h1 : ((((32 - r % 32 : Nat) : Int) % 256).toNat) = 32 - r % 32 := by omega
    rw [h1]
    have h2 : (32 - r % 32) % 256 = 32 - r % 32 := by omega
    rw [h2]
  · intro hsize libc m hm hr
    rw [hA, hS] at hsize
    have hmod : (size + ALIGNMENT) % SIZE_MOD = size + 32 := by
      rw [hA]
      exact Nat.mod_eq_of_lt (by rw [hS]; omega)
    have hspec := a_malloc_spec libc size m (libc.malloc ((size + ALIGNMENT) % SIZE_MOD) m).2 r
      (by rw [← hm]) hr
    rw [hspec]
    dsimp only
    rw [hd]
    refine ⟨hmod, by push_cast; omega, by omega, by omega, by omega, by omega⟩
  · intro hsize libc m q d r' hq hload h1 h32 hle hre hr'
    rw [hA, hS] at hsize
    have hmod : (size + d) % SIZE_MOD = size + d := Nat.mod_eq_of_lt (by rw [hS]; omega)
    have hspec := a_realloc_spec libc q size d m
      (libc.realloc (q - d) ((size + d) % SIZE_MOD) m).2 r' hq hload hle (by rw [← hre])
    rw [hspec, if_pos hr']
    dsimp only
    refine ⟨hmod, rfl, by omega, by omega, by omega, by omega⟩

/-- C20 on an explicit input: the raw block of 36 bytes at 4112 and the block of 4 bytes
handed out at 4128. -/
theorem alignDiff_fits_witness :
    (4 + ALIGNMENT) % SIZE_MOD = 4 + 32 ∧
    ((a_malloc bump 4 (machineAt 4112)).1 : Int) = ((4112 : Nat) : Int) + alignDiff 4112 ∧
    4112 ≤ (a_malloc bump 4 (machineAt 4112)).1 - 1 ∧
    (a_malloc bump 4 (machineAt 4112)).1 - 1 < 4112 + (4 + 32) ∧
    4112 ≤ (a_malloc bump 4 (machineAt 4112)).1 ∧
    (a_malloc bump 4 (machineAt 4112)).1 + 4 ≤ 4112 + (4 + 32) :=
  (alignDiff_fits 4112 4).2.2.2.2.2.1 (by decide) bump (machineAt 4112) rfl (by decide)

end Bmem
